import Mathlib

/-!
# Verification of the smart-tree budget-constrained renderer

Shallow embedding of the rendering core of the `smart-tree` repository
(`src/display/{format,state,utils,colors}.rs`, `src/types.rs`) and proofs
about the claims of its specification.

Modelling conventions:
* Rust `usize`/`u64` values are `Nat`; overflow is modelled explicitly where
  it can occur: unguarded `-= 1` is wrapping subtraction mod `2^64`
  (release-profile semantics; debug builds panic there), `saturating_sub` /
  `saturating_mul` are `Nat` subtraction / capped multiplication, and
  `3_usize.pow(depth as u32)` is `(3 ^ (depth % 2^32)) % 2^64`.
  The guarded `-= 1` statements inside `show_items` execute only when
  `lines_remaining > 0`, so plain `Nat` subtraction is their exact behaviour
  for every representable value.
* `SystemTime` values are seconds since the epoch (`Nat`); the ambient clock
  `SystemTime::now()` is a parameter `now`.
* `determine_file_type` consults the filesystem (symlink status, executable
  bit, path extension); its answer is modelled as a field `ftype` of the
  entry.
* The `colored` crate's global switch `SHOULD_COLORIZE` (tty/env detection)
  is modelled as the config field `env_colorize`; its rendered escape
  sequences are modelled byte-for-byte (`"\x1b[<codes>m" ++ text ++ "\x1b[0m"`).
* `f64` arithmetic in `format_size`: the `u64 -> f64` cast rounds to 53
  significant bits (half to even); the subsequent division by a power of two
  is exact in `f64`, and `{:.N}` formatting rounds the value to `N` decimal
  digits (half to even).  Both roundings are modelled exactly on `Nat`.
* The renderer state `DisplayState` carries three ghost fields (`emitted`,
  `summaries`, `work`) used only to state theorems; they mirror the output
  and never influence control flow.
-/

/-- `SortBy` from `types.rs`. -/
inductive SortBy where
  | Name | Size | Modified | Created
deriving DecidableEq

/-- `ColorTheme` from `types.rs`. -/
inductive ColorTheme where
  | Auto | Light | Dark | NoTheme
deriving DecidableEq

/-- `FileType` from `types.rs`. -/
inductive FileType where
  | Directory | Symlink | Regular | Image | Video | Audio | Archive
  | Code | Document | Executable | Hidden
deriving DecidableEq

/-- `Color` from the `colored` crate (the variants used by `colors.rs`). -/
inductive Color where
  | Black | Red | Green | Yellow | Blue | Magenta | Cyan | White
  | BrightBlack | BrightRed | BrightGreen | BrightYellow
  | BrightBlue | BrightMagenta | BrightCyan | BrightWhite
deriving DecidableEq

/-- `EntryMetadata` from `types.rs`; timestamps are seconds since the epoch. -/
structure EntryMetadata where
  size : Nat
  created : Nat
  modified : Nat
  files_count : Nat
deriving DecidableEq

/-- `DirectoryEntry` from `types.rs`.  The `path` field is replaced by
`ftype`, the (filesystem-dependent) answer of `determine_file_type`;
`filter_annotation` is named `filterAnn` here. -/
structure DirectoryEntry where
  name : String
  is_dir : Bool
  metadata : EntryMetadata
  children : List DirectoryEntry
  is_gitignored : Bool
  filtered_by : Option String
  filterAnn : Option String
  ftype : FileType

/-- `DisplayConfig` from `types.rs` (rule-related CLI fields omitted: they are
never read by the rendering core).  `env_colorize` models the `colored`
crate's global `SHOULD_COLORIZE` switch consulted by `should_use_colors`. -/
structure DisplayConfig where
  max_lines : Nat
  dir_limit : Nat
  sort_by : SortBy
  dirs_first : Bool
  use_colors : Bool
  color_theme : ColorTheme
  use_emoji : Bool
  size_colorize : Bool
  date_colorize : Bool
  detailed_metadata : Bool
  show_system_dirs : Bool
  show_filtered : Bool
  env_colorize : Bool
deriving DecidableEq

/-- `DisplaySection` from `state.rs`. -/
structure DisplaySection where
  head_count : Nat
  tail_count : Nat
  total_hidden : Nat
deriving DecidableEq

/-- `DisplayState` from `state.rs` (the `config` reference is passed as an
explicit argument instead).  `emitted` (names of entry lines), `summaries`
(counts shown in hidden-item lines) and `work` (one unit per `show_items`
call and per loop iteration) are ghost fields for specification only. -/
structure DisplayState where
  lines_remaining : Nat
  output : String
  depth : Nat
  budget_stack : List Nat
  emitted : List String
  summaries : List Nat
  work : Nat
deriving DecidableEq

/-- Tree connector constants from `colors.rs`. -/
def TREE_BRANCH : String := "├── "

/-- `colors.rs`: corner connector. -/
def TREE_CORNER : String := "└── "

/-- `colors.rs`: vertical continuation. -/
def TREE_VERTICAL : String := "│   "

/-- `colors.rs`: blank continuation. -/
def TREE_SPACE : String := "    "

/-- Emoji constants from `colors.rs`. -/
def EMOJI_DIRECTORY : String := "📁 "
def EMOJI_FILE : String := "📄 "
def EMOJI_IMAGE : String := "🖼️ "
def EMOJI_VIDEO : String := "🎬 "
def EMOJI_AUDIO : String := "🎵 "
def EMOJI_ARCHIVE : String := "📦 "
def EMOJI_CODE : String := "📝 "
def EMOJI_LINK : String := "🔗 "
def EMOJI_HIDDEN : String := "👁️ "
def EMOJI_LOCK : String := "🔒 "

/-- `colors.rs::should_use_colors`. -/
def should_use_colors (cfg : DisplayConfig) : Bool :=
  if !cfg.use_colors || cfg.color_theme = ColorTheme.NoTheme then false
  else cfg.env_colorize

/-- `colors.rs::should_use_emoji`. -/
def should_use_emoji (cfg : DisplayConfig) : Bool :=
  cfg.use_emoji && should_use_colors cfg

/-- `colors.rs::determine_file_type`, with the filesystem consultation
replaced by the entry's `ftype` field (directories are still forced to
`Directory`, as in the source's first branch). -/
def determine_file_type (entry : DirectoryEntry) : FileType :=
  if entry.is_dir then FileType.Directory else entry.ftype

/-- `colors.rs::get_file_emoji`. -/
def get_file_emoji : FileType → String
  | FileType.Directory => EMOJI_DIRECTORY
  | FileType.Symlink => EMOJI_LINK
  | FileType.Image => EMOJI_IMAGE
  | FileType.Video => EMOJI_VIDEO
  | FileType.Audio => EMOJI_AUDIO
  | FileType.Archive => EMOJI_ARCHIVE
  | FileType.Code => EMOJI_CODE
  | FileType.Document => EMOJI_FILE
  | FileType.Executable => EMOJI_LOCK
  | FileType.Hidden => EMOJI_HIDDEN
  | FileType.Regular => EMOJI_FILE

/-- `colors.rs::get_name_color`. -/
def get_name_color (entry : DirectoryEntry) (cfg : DisplayConfig) : Color :=
  let file_type := determine_file_type entry
  match cfg.color_theme with
  | ColorTheme.Light =>
    match file_type with
    | FileType.Directory => Color.Blue
    | FileType.Symlink => Color.Cyan
    | FileType.Image => Color.Magenta
    | FileType.Video => Color.Magenta
    | FileType.Audio => Color.Yellow
    | FileType.Archive => Color.Red
    | FileType.Code => Color.Green
    | FileType.Document => Color.Blue
    | FileType.Executable => Color.Red
    | FileType.Hidden => Color.BrightBlack
    | FileType.Regular => Color.Black
  | _ =>
    match file_type with
    | FileType.Directory => Color.BrightBlue
    | FileType.Symlink => Color.BrightCyan
    | FileType.Image => Color.BrightMagenta
    | FileType.Video => Color.BrightMagenta
    | FileType.Audio => Color.BrightYellow
    | FileType.Archive => Color.BrightRed
    | FileType.Code => Color.BrightGreen
    | FileType.Document => Color.BrightBlue
    | FileType.Executable => Color.BrightRed
    | FileType.Hidden => Color.BrightBlack
    | FileType.Regular => Color.White

/-- `colors.rs::get_gitignored_color`. -/
def get_gitignored_color (_cfg : DisplayConfig) : Color := Color.BrightBlack

/-- `colors.rs::get_size_color`. -/
def get_size_color (size_bytes : Nat) (cfg : DisplayConfig) : Color :=
  match cfg.color_theme with
  | ColorTheme.Light =>
    if size_bytes < 1024 then Color.Green
    else if size_bytes < 1024 * 1024 then Color.Blue
    else if size_bytes < 100 * 1024 * 1024 then Color.Yellow
    else if size_bytes < 1024 * 1024 * 1024 then Color.Red
    else Color.Magenta
  | _ =>
    if size_bytes < 1024 then Color.BrightGreen
    else if size_bytes < 1024 * 1024 then Color.BrightBlue
    else if size_bytes < 100 * 1024 * 1024 then Color.BrightYellow
    else if size_bytes < 1024 * 1024 * 1024 then Color.BrightRed
    else Color.BrightMagenta

/-- `colors.rs::get_date_color`. -/
def get_date_color (seconds_ago : Nat) (cfg : DisplayConfig) : Color :=
  match cfg.color_theme with
  | ColorTheme.Light =>
    if seconds_ago < 3600 then Color.Green
    else if seconds_ago < 86400 then Color.Blue
    else if seconds_ago < 7 * 86400 then Color.Yellow
    else if seconds_ago < 30 * 86400 then Color.Magenta
    else Color.BrightBlack
  | _ =>
    if seconds_ago < 3600 then Color.BrightGreen
    else if seconds_ago < 86400 then Color.BrightBlue
    else if seconds_ago < 7 * 86400 then Color.BrightYellow
    else if seconds_ago < 30 * 86400 then Color.BrightMagenta
    else Color.BrightBlack

/-- `colors.rs::get_metadata_color`. -/
def get_metadata_color (_cfg : DisplayConfig) : Color := Color.BrightBlack

/-- `colors.rs::get_connector_color`. -/
def get_connector_color (_cfg : DisplayConfig) : Color := Color.BrightBlack

/-- `colors.rs::get_hidden_items_color`. -/
def get_hidden_items_color (_cfg : DisplayConfig) : Color := Color.Yellow

/-- Modelled from the spec: `get_label_color` is called by
`utils.rs::format_colorized_metadata` but its definition is missing from
`src/`; the spec (§4.4) fixes only that metadata text is decorated, not the
palette, so it is modelled as the gray used by the present metadata getters.
No claim depends on the palette. -/
def get_label_color (_cfg : DisplayConfig) : Color := Color.BrightBlack

/-- Modelled from the spec: `get_value_color` is missing from `src/`
(see `get_label_color`). -/
def get_value_color (_cfg : DisplayConfig) : Color := Color.White

/-- Modelled from the spec: `get_separator_color` is missing from `src/`
(see `get_label_color`). -/
def get_separator_color (_cfg : DisplayConfig) : Color := Color.BrightBlack

/-- Modelled from the spec: `get_filter_annotation_color` is missing from
`src/` (see `get_label_color`). -/
def get_filter_annotation_color (_cfg : DisplayConfig) : Color := Color.Yellow

/-- ANSI foreground code of a `colored` crate color. -/
def fgCode : Color → String
  | Color.Black => "30"
  | Color.Red => "31"
  | Color.Green => "32"
  | Color.Yellow => "33"
  | Color.Blue => "34"
  | Color.Magenta => "35"
  | Color.Cyan => "36"
  | Color.White => "37"
  | Color.BrightBlack => "90"
  | Color.BrightRed => "91"
  | Color.BrightGreen => "92"
  | Color.BrightYellow => "93"
  | Color.BrightBlue => "94"
  | Color.BrightMagenta => "95"
  | Color.BrightCyan => "96"
  | Color.BrightWhite => "97"

/-- `colors.rs::colorize`: `text.color(c).to_string()` when colors are on. -/
def colorize (text : String) (color : Color) (cfg : DisplayConfig) : String :=
  if should_use_colors cfg then "\x1b[" ++ fgCode color ++ "m" ++ text ++ "\x1b[0m"
  else text

/-- `colors.rs::colorize_styled` (optional bold). -/
def colorize_styled (text : String) (color : Color) (bold : Bool)
    (cfg : DisplayConfig) : String :=
  if !should_use_colors cfg then text
  else if bold then "\x1b[1;" ++ fgCode color ++ "m" ++ text ++ "\x1b[0m"
  else "\x1b[" ++ fgCode color ++ "m" ++ text ++ "\x1b[0m"

/-- `colors.rs::format_name_with_emoji`. -/
def format_name_with_emoji (entry : DirectoryEntry) (cfg : DisplayConfig) : String :=
  if !should_use_emoji cfg then entry.name
  else get_file_emoji (determine_file_type entry) ++ entry.name

/-- Comparison of unsigned integers / timestamps (Rust `Ord` on `u64`,
`usize`, `SystemTime`). -/
def natCmp (a b : Nat) : Ordering :=
  if a < b then Ordering.lt else if a = b then Ordering.eq else Ordering.gt

/-- Character comparison by code point (Rust compares strings byte-wise;
UTF-8 byte order coincides with code-point order). -/
def chrCmp (a b : Char) : Ordering := natCmp a.toNat b.toNat

/-- Lexicographic comparison of character lists. -/
def listCmp : List Char → List Char → Ordering
  | [], [] => Ordering.eq
  | [], _ :: _ => Ordering.lt
  | _ :: _, [] => Ordering.gt
  | a :: xs, b :: ys =>
    match chrCmp a b with
    | Ordering.eq => listCmp xs ys
    | o => o

/-- Rust `String::cmp`: lexicographic. -/
def strCmp (a b : String) : Ordering := listCmp a.data b.data

/-- The comparator closure passed to `sort_by` in `utils.rs::sort_entries`:
directories first (when configured), then the configured key; `name` is
ascending, `size`/`modified`/`created` are descending (arguments swapped, as
in the source). -/
def cmpEntries (cfg : DisplayConfig) (a b : DirectoryEntry) : Ordering :=
  if cfg.dirs_first && a.is_dir && !b.is_dir then Ordering.lt
  else if cfg.dirs_first && !a.is_dir && b.is_dir then Ordering.gt
  else
    match cfg.sort_by with
    | SortBy.Name => strCmp a.name b.name
    | SortBy.Size => natCmp b.metadata.size a.metadata.size
    | SortBy.Modified => natCmp b.metadata.modified a.metadata.modified
    | SortBy.Created => natCmp b.metadata.created a.metadata.created

/-- Stable insertion step: `x` is placed before the first element it does not
compare `Greater` to, i.e. after every earlier element it ties with. -/
def insertCmp (cmp : α → α → Ordering) (x : α) : List α → List α
  | [] => [x]
  | y :: ys => if cmp x y = Ordering.gt then y :: insertCmp cmp x ys else x :: y :: ys

/-- Stable sort by a comparator; models Rust's stable `slice::sort_by`. -/
def sortByCmp (cmp : α → α → Ordering) : List α → List α
  | [] => []
  | x :: xs => insertCmp cmp x (sortByCmp cmp xs)

/-- `utils.rs::sort_entries` (functional: returns the sorted list). -/
def sort_entries (cfg : DisplayConfig) (entries : List DirectoryEntry) :
    List DirectoryEntry :=
  sortByCmp (cmpEntries cfg) entries

/-- Binary-unit constants from `utils.rs::format_size`. -/
def sizeKB : Nat := 1024
def sizeMB : Nat := sizeKB * 1024
def sizeGB : Nat := sizeMB * 1024
def sizeTB : Nat := sizeGB * 1024

/-- Round an exact quotient `a / b` to the nearest integer, ties to even —
the rounding used both by `u64 -> f64` conversion and by Rust's `{:.N}`
float formatting. -/
def roundHalfEvenDiv (a b : Nat) : Nat :=
  let q := a / b
  let r := a % b
  if 2 * r > b || (2 * r = b && q % 2 = 1) then q + 1 else q

/-- The value of `n as f64` for a `u64` value `n`: exact below `2^53`,
otherwise rounded (half to even) to 53 significant bits. -/
def round53 (n : Nat) : Nat :=
  if n < 2 ^ 53 then n
  else
    let e := Nat.log2 n + 1 - 53
    roundHalfEvenDiv n (2 ^ e) * 2 ^ e

/-- Fractional digits of `m` (which is `< 10^p`), zero-padded to width `p`,
most significant first. -/
def decDigitsPadded (p m : Nat) : List Char :=
  (List.range p).reverse.map (fun i => Nat.digitChar (m / 10 ^ i % 10))

/-- Rust `format!("{:.p}", num as f64 / den as f64)` for a power-of-two
`den`: the cast rounds to 53 bits, the division is exact in `f64`, and the
formatting rounds to `p` decimal digits (half to even). -/
def fmtFloat (p num den : Nat) : String :=
  let v := round53 num
  let scaled := roundHalfEvenDiv (v * 10 ^ p) den
  Nat.repr (scaled / 10 ^ p) ++ "." ++ String.mk (decDigitsPadded p (scaled % 10 ^ p))

/-- `utils.rs::format_size`. -/
def format_size (size : Nat) : String :=
  if size ≥ sizeTB then fmtFloat 2 size sizeTB ++ "TB"
  else if size ≥ sizeGB then fmtFloat 2 size sizeGB ++ "GB"
  else if size ≥ sizeMB then fmtFloat 1 size sizeMB ++ "MB"
  else if size ≥ sizeKB then fmtFloat 1 size sizeKB ++ "KB"
  else Nat.repr size ++ "B"

/-- `utils.rs::format_time`; `time` is seconds since the epoch and `now` the
ambient clock (`SystemTime::now()`). -/
def format_time (now time : Nat) : String :=
  let diff := now - time
  if diff < 60 then "just now"
  else if diff < 3600 then Nat.repr (diff / 60) ++ "m ago"
  else if diff < 86400 then Nat.repr (diff / 3600) ++ "h ago"
  else if diff < 7 * 86400 then Nat.repr (diff / 86400) ++ "d ago"
  else if diff < 30 * 86400 then Nat.repr (diff / (7 * 86400)) ++ "w ago"
  else if diff < 365 * 86400 then Nat.repr (diff / (30 * 86400)) ++ "mo ago"
  else Nat.repr (diff / (365 * 86400)) ++ "y ago"

/-- `utils.rs::format_directory_metadata`. -/
def format_directory_metadata (now : Nat) (entry : DirectoryEntry) : String :=
  "(" ++ Nat.repr entry.metadata.files_count ++ " files, "
    ++ format_size entry.metadata.size ++ ", modified "
    ++ format_time now entry.metadata.modified ++ ")"

/-- `utils.rs::format_file_metadata`. -/
def format_file_metadata (now : Nat) (entry : DirectoryEntry) : String :=
  "(" ++ format_size entry.metadata.size ++ ", modified "
    ++ format_time now entry.metadata.modified ++ ")"

/-- `utils.rs::format_metadata`. -/
def format_metadata (now : Nat) (entry : DirectoryEntry) : String :=
  if entry.is_dir then format_directory_metadata now entry
  else format_file_metadata now entry

/-- `utils.rs::format_colorized_metadata`. -/
def format_colorized_metadata (cfg : DisplayConfig) (now : Nat)
    (entry : DirectoryEntry) : String :=
  if !should_use_colors cfg then format_metadata now entry
  else
    let time_diff := now - entry.metadata.modified
    let sep := colorize " | " (get_separator_color cfg) cfg
    if entry.is_dir then
      let files_label := colorize "files: " (get_label_color cfg) cfg
      let files_value :=
        if cfg.size_colorize then
          colorize (Nat.repr entry.metadata.files_count)
            (get_size_color entry.metadata.size cfg) cfg
        else
          colorize (Nat.repr entry.metadata.files_count) (get_value_color cfg) cfg
      let files_section := files_label ++ files_value
      let size_label := colorize "size: " (get_label_color cfg) cfg
      let size_value :=
        if cfg.size_colorize then
          colorize (format_size entry.metadata.size)
            (get_size_color entry.metadata.size cfg) cfg
        else
          colorize (format_size entry.metadata.size) (get_value_color cfg) cfg
      let size_section := size_label ++ size_value
      let date_label := colorize "mod: " (get_label_color cfg) cfg
      let date_value :=
        if cfg.date_colorize then
          colorize (format_time now entry.metadata.modified)
            (get_date_color time_diff cfg) cfg
        else
          colorize (format_time now entry.metadata.modified) (get_value_color cfg) cfg
      let date_section := date_label ++ date_value
      "(" ++ files_section ++ sep ++ size_section ++ sep ++ date_section ++ ")"
    else
      let size_label := colorize "size: " (get_label_color cfg) cfg
      let size_value :=
        if cfg.size_colorize then
          colorize (format_size entry.metadata.size)
            (get_size_color entry.metadata.size cfg) cfg
        else
          colorize (format_size entry.metadata.size) (get_value_color cfg) cfg
      let size_section := size_label ++ size_value
      let date_label := colorize "mod: " (get_label_color cfg) cfg
      let date_value :=
        if cfg.date_colorize then
          colorize (format_time now entry.metadata.modified)
            (get_date_color time_diff cfg) cfg
        else
          colorize (format_time now entry.metadata.modified) (get_value_color cfg) cfg
      let date_section := date_label ++ date_value
      "(" ++ size_section ++ sep ++ date_section ++ ")"

/-- Rust's derived `Debug` rendering of a `FileType` value
(`format!("{:?}", file_type)`). -/
def fileTypeDebug : FileType → String
  | FileType.Directory => "Directory"
  | FileType.Symlink => "Symlink"
  | FileType.Regular => "Regular"
  | FileType.Image => "Image"
  | FileType.Video => "Video"
  | FileType.Audio => "Audio"
  | FileType.Archive => "Archive"
  | FileType.Code => "Code"
  | FileType.Document => "Document"
  | FileType.Executable => "Executable"
  | FileType.Hidden => "Hidden"

/-- `utils.rs::format_detailed_metadata`. -/
def format_detailed_metadata (cfg : DisplayConfig) (now : Nat)
    (entry : DirectoryEntry) : String :=
  if !cfg.detailed_metadata then format_colorized_metadata cfg now entry
  else
    let time_diff := now - entry.metadata.modified
    let created_diff := now - entry.metadata.created
    let type_str := fileTypeDebug (determine_file_type entry)
    let sep := colorize " | " (get_separator_color cfg) cfg
    let size_label := colorize "size: " (get_label_color cfg) cfg
    let size_value :=
      if cfg.size_colorize then
        colorize (format_size entry.metadata.size)
          (get_size_color entry.metadata.size cfg) cfg
      else
        colorize (format_size entry.metadata.size) (get_value_color cfg) cfg
    let size_section := size_label ++ size_value
    let type_label := colorize "type: " (get_label_color cfg) cfg
    let type_value := colorize type_str (get_name_color entry cfg) cfg
    let type_section := type_label ++ type_value
    let mod_label := colorize "mod: " (get_label_color cfg) cfg
    let mod_value :=
      if cfg.date_colorize then
        colorize (format_time now entry.metadata.modified)
          (get_date_color time_diff cfg) cfg
      else
        colorize (format_time now entry.metadata.modified) (get_value_color cfg) cfg
    let mod_section := mod_label ++ mod_value
    let created_label := colorize "created: " (get_label_color cfg) cfg
    let created_value :=
      if cfg.date_colorize then
        colorize (format_time now entry.metadata.created)
          (get_date_color created_diff cfg) cfg
      else
        colorize (format_time now entry.metadata.created) (get_value_color cfg) cfg
    let created_section := created_label ++ created_value
    if entry.is_dir then
      let files_label := colorize "files: " (get_label_color cfg) cfg
      let files_value :=
        if cfg.size_colorize then
          colorize (Nat.repr entry.metadata.files_count)
            (get_size_color entry.metadata.size cfg) cfg
        else
          colorize (Nat.repr entry.metadata.files_count) (get_value_color cfg) cfg
      let files_section := files_label ++ files_value
      "(" ++ size_section ++ sep ++ type_section ++ sep ++ mod_section
        ++ sep ++ created_section ++ sep ++ files_section ++ ")"
    else
      "(" ++ size_section ++ sep ++ type_section ++ sep ++ mod_section
        ++ sep ++ created_section ++ ")"

/-- `state.rs::DisplayState::calculate_level_budget`.  `self.depth` and
`self.lines_remaining` are the first two arguments.  `3_usize.pow(depth as
u32)` truncates the exponent to 32 bits and wraps the power mod `2^64`
(release-profile semantics; debug builds panic on the overflow). -/
def calculate_level_budget (depth lines_remaining total_items : Nat) : Nat :=
  if lines_remaining = 0 ∨ total_items = 0 then 0
  else
    let depth_overhead := min (depth * 2) (2 ^ 64 - 1)
    let structure_lines := (2 + depth_overhead) % 2 ^ 64
    let available := lines_remaining - structure_lines
    if available = 0 then 0
    else
      let base_budget :=
        if depth = 0 then min available total_items
        else
          let level_factor := 3 ^ (depth % 2 ^ 32) % 2 ^ 64
          min (available / level_factor) total_items
      max base_budget 1

/-- `state.rs::DisplayState::calculate_display_section`. -/
def calculate_display_section (total budget : Nat) : DisplaySection :=
  if total ≤ budget then
    { head_count := total, tail_count := 0, total_hidden := 0 }
  else
    let available := budget - 1
    let min_head := 1
    let min_tail := if available > 2 then 1 else 0
    let remaining := available - (min_head + min_tail)
    let additional_head := remaining / 2
    let additional_tail := remaining - additional_head
    let head_count := min_head + additional_head
    let tail_count := min_tail + additional_tail
    { head_count := head_count, tail_count := tail_count,
      total_hidden := total - (head_count + tail_count) }

/-- `state.rs::DisplayState::format_entry`; `pre` and `is_last` are the
fields of the `FormatContext` argument (the `depth` field of `self` is used
only for logging). -/
def format_entry (cfg : DisplayConfig) (now : Nat) (entry : DirectoryEntry)
    (pre : String) (is_last : Bool) : String :=
  let connector_str := if is_last then TREE_CORNER else TREE_BRANCH
  let connector := colorize connector_str (get_connector_color cfg) cfg
  let colorized_pre := colorize pre (get_connector_color cfg) cfg
  let name_color :=
    if entry.is_gitignored then get_gitignored_color cfg
    else get_name_color entry cfg
  let display_name :=
    if should_use_emoji cfg then format_name_with_emoji entry cfg
    else entry.name
  let name := colorize_styled display_name name_color entry.is_dir cfg
  let colorized_metadata :=
    if cfg.detailed_metadata then format_detailed_metadata cfg now entry
    else format_colorized_metadata cfg now entry
  let base := colorized_pre ++ connector ++ name
  if entry.is_gitignored && entry.is_dir then
    if cfg.show_system_dirs then
      base ++ " " ++ colorized_metadata
        ++ colorize " [system]" (get_gitignored_color cfg) cfg ++ "\n"
    else
      base ++ " " ++ colorized_metadata
        ++ colorize " [folded: system]" (get_gitignored_color cfg) cfg ++ "\n"
  else
    let withMeta := base ++ " " ++ colorized_metadata
    let withAnn :=
      match entry.filterAnn with
      | some ann =>
        withMeta ++ colorize (" [" ++ ann ++ "]") (get_filter_annotation_color cfg) cfg
      | none => withMeta
    withAnn ++ "\n"

theorem sizeOf_list_take (l : List DirectoryEntry) (n : Nat) :
    sizeOf (l.take n) ≤ sizeOf l := by
  induction l generalizing n with
  | nil => cases n <;> simp
  | cons a l ih =>
    cases n with
    | zero => simp [List.take]; omega
    | succ m =>
      simp [List.take]
      have := ih m
      omega

theorem sizeOf_list_drop (l : List DirectoryEntry) (n : Nat) :
    sizeOf (l.drop n) ≤ sizeOf l := by
  induction l generalizing n with
  | nil => cases n <;> simp
  | cons a l ih =>
    cases n with
    | zero => simp
    | succ m =>
      simp [List.drop]
      have := ih m
      omega

theorem sizeOf_children_lt (e : DirectoryEntry) :
    sizeOf e.children + 1 ≤ sizeOf e := by
  cases e
  simp
  omega

theorem measure_take (l : List DirectoryEntry) (n : Nat) :
    2 * sizeOf (l.take n) < 2 * sizeOf l + 1 := by
  have := sizeOf_list_take l n
  omega

theorem measure_drop (l : List DirectoryEntry) (n : Nat) :
    2 * sizeOf (l.drop n) < 2 * sizeOf l + 1 := by
  have := sizeOf_list_drop l n
  omega

theorem measure_children (item : DirectoryEntry) (rest : List DirectoryEntry) :
    2 * sizeOf item.children + 1 < 2 * sizeOf (item :: rest) := by
  have := sizeOf_children_lt item
  simp only [List.cons.sizeOf_spec]
  omega

theorem measure_rest (item : DirectoryEntry) (rest : List DirectoryEntry) :
    2 * sizeOf rest < 2 * sizeOf (item :: rest) := by
  simp only [List.cons.sizeOf_spec]
  omega

theorem measure_children_dfs (e : DirectoryEntry) (rest : List DirectoryEntry) :
    sizeOf e.children < sizeOf (e :: rest) := by
  have := sizeOf_children_lt e
  simp only [List.cons.sizeOf_spec]
  omega

theorem measure_rest_dfs (e : DirectoryEntry) (rest : List DirectoryEntry) :
    sizeOf rest < sizeOf (e :: rest) := by
  simp only [List.cons.sizeOf_spec]
  omega

mutual

/-- `state.rs::DisplayState::show_items`.  The two `for` loops are the two
`show_loop` calls; pushing on `budget_stack` is modelled as consing (the
stack is written but never read).  Ghost updates: `work` counts the call,
`summaries` records the hidden-items count when that line is emitted. -/
def show_items (cfg : DisplayConfig) (now : Nat) (items : List DirectoryEntry)
    (pre : String) (s : DisplayState) : DisplayState :=
  let s0 := { s with work := s.work + 1 }
  if items.isEmpty ∨ s0.lines_remaining = 0 then s0
  else
    let budget := calculate_level_budget s0.depth s0.lines_remaining items.length
    let sect := calculate_display_section items.length (min budget cfg.dir_limit)
    let s1 := { s0 with depth := s0.depth + 1,
                        budget_stack := s0.lines_remaining :: s0.budget_stack }
    let s2 := show_loop cfg now pre
      (fun i => sect.tail_count == 0 && i == sect.head_count - 1 &&
        (sect.total_hidden == 0 || sect.total_hidden == 1))
      0 (items.take sect.head_count) s1
    let s3 :=
      if sect.total_hidden > 1 ∧ s2.lines_remaining > 0 then
        { s2 with
          output := s2.output
            ++ colorize pre (get_connector_color cfg) cfg
            ++ colorize TREE_BRANCH (get_connector_color cfg) cfg
            ++ colorize ("... " ++ Nat.repr sect.total_hidden ++ " items hidden ...")
                 (get_hidden_items_color cfg) cfg
            ++ "\n",
          lines_remaining := s2.lines_remaining - 1,
          summaries := s2.summaries ++ [sect.total_hidden] }
      else s2
    let s4 :=
      if sect.tail_count > 0 ∧ s3.lines_remaining > 0 then
        show_loop cfg now pre (fun i => i == sect.tail_count - 1) 0
          (items.drop (items.length - sect.tail_count)) s3
      else s3
    { s4 with depth := s4.depth - 1, budget_stack := s4.budget_stack.tail }
termination_by 2 * sizeOf items + 1
decreasing_by
  all_goals first
    | apply measure_take
    | apply measure_drop

/-- One `for` loop of `show_items` over the slice `items`:  `lastf i` is the
`is_last` computation at index `i`, the leading `lines_remaining == 0` test
is the loop's `break` (once zero, the remaining iterations are no-ops, so
returning is equivalent), and each iteration emits one entry line, recurses
into shown directories, and continues.  Ghost updates: `work` counts the
iteration, `emitted` records the entry's name. -/
def show_loop (cfg : DisplayConfig) (now : Nat) (pre : String)
    (lastf : Nat → Bool) (i : Nat) (items : List DirectoryEntry)
    (s : DisplayState) : DisplayState :=
  match items with
  | [] => s
  | item :: rest =>
    let s0 := { s with work := s.work + 1 }
    if s0.lines_remaining = 0 then s0
    else
      let is_last := lastf i
      let entry_line := format_entry cfg now item pre is_last
      let s1 := { s0 with output := s0.output ++ entry_line,
                          lines_remaining := s0.lines_remaining - 1,
                          emitted := s0.emitted ++ [item.name] }
      let should_skip := (item.is_gitignored && !cfg.show_system_dirs)
        || (item.filtered_by.isSome && !cfg.show_filtered)
      let s2 :=
        if item.is_dir && decide (s1.lines_remaining > 0) && !should_skip then
          show_items cfg now item.children
            (pre ++ (if is_last then TREE_SPACE else TREE_VERTICAL)) s1
        else s1
      show_loop cfg now pre lastf (i + 1) rest s2
termination_by 2 * sizeOf items
decreasing_by
  all_goals first
    | apply measure_children
    | apply measure_rest

end

/-- `format.rs::format_tree`.  The Rust function returns `state.output`; the
whole final state is returned here so that theorems can also speak about the
counter and the ghost fields.  The unguarded `lines_remaining -= 1` for the
root marker line is usize wrapping subtraction (`wsub1`); debug builds panic
there when `max_lines == 0`. -/
def wsub1 (n : Nat) : Nat := (n + (2 ^ 64 - 1)) % 2 ^ 64

/-- `DisplayState::new` from `state.rs`. -/
def DisplayState.new (max_lines : Nat) : DisplayState :=
  { lines_remaining := max_lines, output := "", depth := 0,
    budget_stack := [max_lines], emitted := [], summaries := [], work := 0 }

/-- `format.rs::format_tree` (see `wsub1` above for the root decrement). -/
def format_tree (cfg : DisplayConfig) (now : Nat) (root : DirectoryEntry) :
    DisplayState :=
  let st := DisplayState.new cfg.max_lines
  let root_dir := colorize_styled "." (get_name_color root cfg) true cfg
  let st := { st with output := st.output ++ root_dir ++ "\n",
                      lines_remaining := wsub1 st.lines_remaining }
  let children := sort_entries cfg root.children
  show_items cfg now children "" st

/-- Number of lines of a rendered text: its count of `'\n'` characters
(every emitted line ends in `"\n"`). -/
def countNL (s : String) : Nat := s.data.count '\n'

/-- Names of a forest in depth-first stored order. -/
def dfsNames : List DirectoryEntry → List String
  | [] => []
  | e :: rest => e.name :: (dfsNames e.children ++ dfsNames rest)
termination_by l => sizeOf l
decreasing_by
  all_goals first
    | apply measure_children_dfs
    | apply measure_rest_dfs

/-- `s` contains no newline character. -/
def strNoNL (s : String) : Bool := !s.data.contains '\n'

/-- An optional annotation contains no newline. -/
def annNoNL : Option String → Bool
  | none => true
  | some a => strNoNL a

/-- Every name and filter annotation in the forest is newline-free. -/
def forestNoNL : List DirectoryEntry → Bool
  | [] => true
  | e :: rest =>
    strNoNL e.name && annNoNL e.filterAnn && forestNoNL e.children && forestNoNL rest
termination_by l => sizeOf l
decreasing_by
  all_goals first
    | apply measure_children_dfs
    | apply measure_rest_dfs

theorem list_sizeOf_pos (l : List DirectoryEntry) : 1 ≤ sizeOf l := by
  cases l
  · simp
  · simp
    omega

theorem countNL_append (a b : String) : countNL (a ++ b) = countNL a + countNL b := by
  simp [countNL, String.data_append]

theorem digitChar_ne_nl (n : Nat) : Nat.digitChar n ≠ '\n' := by
  rcases Nat.lt_or_ge n 16 with h16 | h16
  · interval_cases n <;> decide
  · have h : Nat.digitChar n = '*' := by
      unfold Nat.digitChar
      repeat rw [if_neg (by omega)]
    rw [h]
    decide

theorem toDigitsCore_nl (b fuel n : Nat) (acc : List Char)
    (h : acc.count '\n' = 0) : (Nat.toDigitsCore b fuel n acc).count '\n' = 0 := by
  induction fuel generalizing n acc with
  | zero => simpa [Nat.toDigitsCore] using h
  | succ f ih =>
    rw [Nat.toDigitsCore]
    split
    · simp [List.count_cons, h, digitChar_ne_nl]
    · apply ih
      simp [List.count_cons, h, digitChar_ne_nl]

theorem countNL_natRepr (n : Nat) : countNL (Nat.repr n) = 0 := by
  simp [Nat.repr, countNL, List.asString, Nat.toDigits]
  exact toDigitsCore_nl 10 (n + 1) n [] rfl
theorem countNL_mk (l : List Char) : countNL (String.mk l) = l.count '\n' := rfl

theorem countNL_of_strNoNL (s : String) (h : strNoNL s = true) : countNL s = 0 := by
  simp [strNoNL, List.contains_eq_any_beq] at h
  rw [countNL, List.count_eq_zero]
  intro hm
  exact h hm

theorem countNL_fgCode (c : Color) : countNL (fgCode c) = 0 := by
  cases c <;> decide

theorem countNL_esc1 : countNL "\x1b[" = 0 := by decide
theorem countNL_esc2 : countNL "\x1b[1;" = 0 := by decide
theorem countNL_escm : countNL "m" = 0 := by decide
theorem countNL_esc0 : countNL "\x1b[0m" = 0 := by decide

theorem countNL_colorize (t : String) (c : Color) (cfg : DisplayConfig) :
    countNL (colorize t c cfg) = countNL t := by
  unfold colorize
  split
  · simp [countNL_append, countNL_fgCode, countNL_esc1, countNL_escm, countNL_esc0]
  · rfl

theorem countNL_colorize_styled (t : String) (c : Color) (b : Bool)
    (cfg : DisplayConfig) : countNL (colorize_styled t c b cfg) = countNL t := by
  unfold colorize_styled
  split
  · rfl
  · split <;>
      simp [countNL_append, countNL_fgCode, countNL_esc1, countNL_esc2,
        countNL_escm, countNL_esc0]

theorem countNL_decDigitsPadded (p m : Nat) :
    (decDigitsPadded p m).count '\n' = 0 := by
  rw [List.count_eq_zero]
  intro hmem
  simp [decDigitsPadded] at hmem
  obtain ⟨i, _, hi⟩ := hmem
  exact digitChar_ne_nl _ hi

theorem countNL_fmtFloat (p num den : Nat) : countNL (fmtFloat p num den) = 0 := by
  unfold fmtFloat
  dsimp only
  simp [countNL_append, countNL_natRepr, countNL_mk, countNL_decDigitsPadded]
  decide

theorem countNL_format_size (n : Nat) : countNL (format_size n) = 0 := by
  unfold format_size
  split_ifs
  all_goals try simp [countNL_append, countNL_fmtFloat, countNL_natRepr]
  all_goals decide

theorem countNL_format_time (now t : Nat) : countNL (format_time now t) = 0 := by
  unfold format_time
  dsimp only
  split_ifs
  all_goals try simp [countNL_append, countNL_natRepr]
  all_goals decide

theorem countNL_format_directory_metadata (now : Nat) (e : DirectoryEntry) :
    countNL (format_directory_metadata now e) = 0 := by
  unfold format_directory_metadata
  simp [countNL_append, countNL_natRepr, countNL_format_size, countNL_format_time]
  decide

theorem countNL_format_file_metadata (now : Nat) (e : DirectoryEntry) :
    countNL (format_file_metadata now e) = 0 := by
  unfold format_file_metadata
  simp [countNL_append, countNL_format_size, countNL_format_time]
  decide

theorem countNL_format_metadata (now : Nat) (e : DirectoryEntry) :
    countNL (format_metadata now e) = 0 := by
  unfold format_metadata
  split
  · exact countNL_format_directory_metadata now e
  · exact countNL_format_file_metadata now e

theorem countNL_format_colorized_metadata (cfg : DisplayConfig) (now : Nat)
    (e : DirectoryEntry) : countNL (format_colorized_metadata cfg now e) = 0 := by
  unfold format_colorized_metadata
  split
  · exact countNL_format_metadata now e
  · dsimp only
    split
    all_goals split_ifs
    all_goals try simp [countNL_append, countNL_colorize, countNL_natRepr,
      countNL_format_size, countNL_format_time]
    all_goals decide

theorem countNL_fileTypeDebug (t : FileType) : countNL (fileTypeDebug t) = 0 := by
  cases t <;> decide

theorem countNL_format_detailed_metadata (cfg : DisplayConfig) (now : Nat)
    (e : DirectoryEntry) : countNL (format_detailed_metadata cfg now e) = 0 := by
  unfold format_detailed_metadata
  split
  · exact countNL_format_colorized_metadata cfg now e
  · dsimp only
    split
    all_goals split_ifs
    all_goals try simp [countNL_append, countNL_colorize, countNL_natRepr,
      countNL_fileTypeDebug, countNL_format_size, countNL_format_time]
    all_goals decide

theorem countNL_format_name_with_emoji (e : DirectoryEntry) (cfg : DisplayConfig) :
    countNL (format_name_with_emoji e cfg) = countNL e.name := by
  unfold format_name_with_emoji
  split
  · rfl
  · rw [countNL_append]
    cases determine_file_type e
    all_goals try simp [get_file_emoji]
    all_goals decide
theorem countNL_format_entry (cfg : DisplayConfig) (now : Nat)
    (e : DirectoryEntry) (pre : String) (il : Bool)
    (hp : countNL pre = 0) (hn : strNoNL e.name = true)
    (ha : annNoNL e.filterAnn = true) :
    countNL (format_entry cfg now e pre il) = 1 := by
  have hn0 : countNL e.name = 0 := countNL_of_strNoNL _ hn
  have hnm : countNL (if should_use_emoji cfg then format_name_with_emoji e cfg
      else e.name) = 0 := by
    split
    · rw [countNL_format_name_with_emoji]; exact hn0
    · exact hn0
  have hconn : countNL (if il then TREE_CORNER else TREE_BRANCH) = 0 := by
    split <;> decide
  have hmeta : countNL (if cfg.detailed_metadata then format_detailed_metadata cfg now e
      else format_colorized_metadata cfg now e) = 0 := by
    split
    · exact countNL_format_detailed_metadata cfg now e
    · exact countNL_format_colorized_metadata cfg now e
  unfold format_entry
  dsimp only
  split
  · split
    all_goals
      simp [countNL_append, countNL_colorize, countNL_colorize_styled, hp, hnm,
        hconn, hmeta]
    all_goals decide
  · cases hfa : e.filterAnn with
    | none =>
      simp only [hfa]
      simp [countNL_append, countNL_colorize, countNL_colorize_styled, hp, hnm,
        hconn, hmeta]
      decide
    | some ann =>
      have hann0 : countNL ann = 0 :=
        countNL_of_strNoNL ann (by simpa [annNoNL, hfa] using ha)
      simp only [hfa]
      simp [countNL_append, countNL_colorize, countNL_colorize_styled, hp, hnm,
        hconn, hmeta, hann0]
      decide

theorem cds_head_le (total budget : Nat) :
    (calculate_display_section total budget).head_count ≤ total := by
  unfold calculate_display_section
  dsimp only
  split_ifs <;> simp <;> omega

theorem cds_head_tail_le (total budget : Nat) :
    (calculate_display_section total budget).head_count
      + (calculate_display_section total budget).tail_count ≤ total := by
  unfold calculate_display_section
  dsimp only
  split_ifs <;> simp <;> omega

theorem dfsNames_append (l₁ l₂ : List DirectoryEntry) :
    dfsNames (l₁ ++ l₂) = dfsNames l₁ ++ dfsNames l₂ := by
  induction l₁ with
  | nil => simp [dfsNames]
  | cons e rest ih => simp [dfsNames, ih]

theorem dfsNames_sublist {l₁ l₂ : List DirectoryEntry} (h : l₁.Sublist l₂) :
    (dfsNames l₁).Sublist (dfsNames l₂) := by
  induction h with
  | slnil => simp
  | cons e _ ih =>
    rw [dfsNames]
    refine List.Sublist.trans ih ?_
    exact (List.sublist_append_right _ _).cons _
  | cons₂ e h ih =>
    rw [dfsNames, dfsNames]
    exact (List.Sublist.append (List.Sublist.refl _) ih).cons₂ _
theorem forestNoNL_nil : forestNoNL [] = true := by rw [forestNoNL]

theorem forestNoNL_cons (e : DirectoryEntry) (rest : List DirectoryEntry) :
    forestNoNL (e :: rest)
      = (strNoNL e.name && annNoNL e.filterAnn && forestNoNL e.children
          && forestNoNL rest) := by
  rw [forestNoNL]

theorem forestNoNL_sublist {l₁ l₂ : List DirectoryEntry} (h : l₁.Sublist l₂)
    (h2 : forestNoNL l₂ = true) : forestNoNL l₁ = true := by
  induction h with
  | slnil => exact h2
  | cons e _ ih =>
    rw [forestNoNL_cons] at h2
    simp only [Bool.and_eq_true] at h2
    exact ih h2.2
  | cons₂ e hsub ih =>
    rw [forestNoNL_cons] at h2 ⊢
    simp only [Bool.and_eq_true] at h2 ⊢
    exact ⟨⟨⟨h2.1.1.1, h2.1.1.2⟩, h2.1.2⟩, ih h2.2⟩

/-- The state relation established by one `show_items` call (`k = 3`) or one
loop (`k = 1`): depth and budget stack are restored, the line counter never
increases, each consumed line added exactly one newline to the output (for
newline-free inputs), the emitted names extend the ghost trace by a sublist
of the stored depth-first order, every recorded summary count is at least 2,
and the ghost work counter grows at most linearly in the consumed lines. -/
def RenderOut (k : Nat) (items : List DirectoryEntry) (pre : String)
    (s s2 : DisplayState) : Prop :=
  s2.depth = s.depth ∧
  s2.budget_stack = s.budget_stack ∧
  s2.lines_remaining ≤ s.lines_remaining ∧
  (forestNoNL items = true → countNL pre = 0 →
     countNL s2.output = countNL s.output + (s.lines_remaining - s2.lines_remaining)) ∧
  (∃ d, s2.emitted = s.emitted ++ d ∧ d.Sublist (dfsNames items)) ∧
  (∃ ds, s2.summaries = s.summaries ++ ds ∧ ∀ n ∈ ds, 2 ≤ n) ∧
  s2.work ≤ s.work + 4 * (s.lines_remaining - s2.lines_remaining) + k

theorem render_spec (N : Nat) :
    (∀ cfg now items pre s, 2 * sizeOf items + 1 ≤ N →
       RenderOut 3 items pre s (show_items cfg now items pre s)) ∧
    (∀ cfg now pre lastf i items s, 2 * sizeOf items ≤ N →
       RenderOut 1 items pre s (show_loop cfg now pre lastf i items s)) := by
  induction N with
  | zero =>
    constructor
    · intro cfg now items pre s hm
      omega
    · intro cfg now pre lastf i items s hm
      have := list_sizeOf_pos items
      omega
  | succ n ih =>
    obtain ⟨ihI, ihL⟩ := ih
    constructor
    · -- show_items
      intro cfg now items pre s hm
      rw [show_items.eq_def]
      dsimp only
      split
      · exact ⟨rfl, rfl, le_refl _, by intro _ _; simp, ⟨[], by simp, by simp⟩,
          ⟨[], by simp, by simp⟩, by simp⟩
      · -- main branch: head loop, hidden message, tail loop, restore depth
        generalize hsect : calculate_display_section items.length
            (calculate_level_budget s.depth s.lines_remaining items.length ⊓ cfg.dir_limit)
          = sect
        have htake : 2 * sizeOf (List.take sect.head_count items) ≤ n := by
          have := sizeOf_list_take items sect.head_count
          omega
        have hAspec := ihL cfg now pre
          (fun i => sect.tail_count == 0 && i == sect.head_count - 1 &&
            (sect.total_hidden == 0 || sect.total_hidden == 1)) 0
          (List.take sect.head_count items)
          { lines_remaining := s.lines_remaining, output := s.output,
            depth := s.depth + 1,
            budget_stack := s.lines_remaining :: s.budget_stack,
            emitted := s.emitted, summaries := s.summaries, work := s.work + 1 }
          htake
        set A := show_loop cfg now pre
          (fun i => sect.tail_count == 0 && i == sect.head_count - 1 &&
            (sect.total_hidden == 0 || sect.total_hidden == 1)) 0
          (List.take sect.head_count items)
          { lines_remaining := s.lines_remaining, output := s.output,
            depth := s.depth + 1,
            budget_stack := s.lines_remaining :: s.budget_stack,
            emitted := s.emitted, summaries := s.summaries, work := s.work + 1 }
          with hA
        obtain ⟨hAd, hAb, hAlr, hAnl, ⟨dA, hAem, hAsub⟩, ⟨sA, hAsm, hAsm2⟩, hAw⟩ := hAspec
        dsimp only at hAd hAb hAlr hAnl hAem hAsm hAw
        set H := (if sect.total_hidden > 1 ∧ A.lines_remaining > 0 then
            { lines_remaining := A.lines_remaining - 1,
              output := A.output ++ colorize pre (get_connector_color cfg) cfg
                ++ colorize TREE_BRANCH (get_connector_color cfg) cfg
                ++ colorize ("... " ++ Nat.repr sect.total_hidden ++ " items hidden ...")
                     (get_hidden_items_color cfg) cfg ++ "\n",
              depth := A.depth, budget_stack := A.budget_stack, emitted := A.emitted,
              summaries := A.summaries ++ [sect.total_hidden], work := A.work }
          else A) with hH
        have hHd : H.depth = A.depth := by rw [hH]; split <;> rfl
        have hHb : H.budget_stack = A.budget_stack := by rw [hH]; split <;> rfl
        have hHem : H.emitted = A.emitted := by rw [hH]; split <;> rfl
        have hHw : H.work = A.work := by rw [hH]; split <;> rfl
        have hHlr : H.lines_remaining ≤ A.lines_remaining := by
          rw [hH]; split
          · dsimp only; omega
          · exact le_refl _
        have hHsm : ∃ dh, H.summaries = A.summaries ++ dh ∧ ∀ x ∈ dh, 2 ≤ x := by
          rw [hH]; split
          · rename_i hcond
            refine ⟨[sect.total_hidden], rfl, ?_⟩
            intro x hx
            simp at hx
            omega
          · exact ⟨[], by simp, by simp⟩
        have hHnl : countNL pre = 0 →
            countNL H.output = countNL A.output
              + (A.lines_remaining - H.lines_remaining) := by
          intro hp
          rw [hH]; split
          · rename_i hcond
            dsimp only
            simp [countNL_append, countNL_colorize, countNL_natRepr, hp]
            have : countNL TREE_BRANCH = 0 := by decide
            rw [this]
            have h1 : countNL "... " = 0 := by decide
            have h2 : countNL " items hidden ..." = 0 := by decide
            rw [h1, h2, (by decide : countNL "\n" = 1)]
            omega
          · simp
        have hdrop : 2 * sizeOf (List.drop (items.length - sect.tail_count) items) ≤ n := by
          have := sizeOf_list_drop items (items.length - sect.tail_count)
          omega
        have hTspec := ihL cfg now pre (fun i => i == sect.tail_count - 1) 0
          (List.drop (items.length - sect.tail_count) items) H hdrop
        set T := (if sect.tail_count > 0 ∧ H.lines_remaining > 0 then
            show_loop cfg now pre (fun i => i == sect.tail_count - 1) 0
              (List.drop (items.length - sect.tail_count) items) H
          else H) with hT
        obtain ⟨hTd, hTb, hTlr, hTnl, ⟨dT, hTem, hTsub⟩, ⟨sT, hTsm, hTsm2⟩, hTw⟩ := hTspec
        have hTd2 : T.depth = H.depth := by rw [hT]; split; exacts [hTd, rfl]
        have hTb2 : T.budget_stack = H.budget_stack := by rw [hT]; split; exacts [hTb, rfl]
        have hTlr2 : T.lines_remaining ≤ H.lines_remaining := by
          rw [hT]; split; exacts [hTlr, le_refl _]
        have hTem2 : ∃ d2, T.emitted = H.emitted ++ d2 ∧
            d2.Sublist (dfsNames (List.drop (items.length - sect.tail_count) items)) := by
          rw [hT]; split
          · exact ⟨dT, hTem, hTsub⟩
          · exact ⟨[], by simp, List.nil_sublist _⟩
        have hTsm3 : ∃ ds2, T.summaries = H.summaries ++ ds2 ∧ ∀ x ∈ ds2, 2 ≤ x := by
          rw [hT]; split
          · exact ⟨sT, hTsm, hTsm2⟩
          · exact ⟨[], by simp, by simp⟩
        have hTnl2 : forestNoNL (List.drop (items.length - sect.tail_count) items) = true →
            countNL pre = 0 →
            countNL T.output = countNL H.output
              + (H.lines_remaining - T.lines_remaining) := by
          intro hf hp
          rw [hT]; split
          · exact hTnl hf hp
          · simp
        have hTw2 : T.work ≤ H.work + 4 * (H.lines_remaining - T.lines_remaining) + 1 := by
          rw [hT]; split
          · exact hTw
          · omega
        obtain ⟨d2, hTem2a, hTsub2⟩ := hTem2
        obtain ⟨dh, hHsma, hHsm2a⟩ := hHsm
        obtain ⟨ds2, hTsm3a, hTsm3b⟩ := hTsm3
        have hht : sect.head_count + sect.tail_count ≤ items.length := by
          have := cds_head_tail_le items.length
            (calculate_level_budget s.depth s.lines_remaining items.length ⊓ cfg.dir_limit)
          rw [hsect] at this
          exact this
        refine ⟨?_, ?_, ?_, ?_, ?_, ?_, ?_⟩
        · dsimp only
          omega
        · dsimp only
          rw [hTb2, hHb, hAb]
          rfl
        · dsimp only
          omega
        · intro hforest hp
          dsimp only
          have hfTake : forestNoNL (List.take sect.head_count items) = true :=
            forestNoNL_sublist (List.take_sublist _ _) hforest
          have hfDrop : forestNoNL (List.drop (items.length - sect.tail_count) items) = true :=
            forestNoNL_sublist (List.drop_sublist _ _) hforest
          have e1 := hAnl hfTake hp
          have e2 := hHnl hp
          have e3 := hTnl2 hfDrop hp
          rw [e3, e2, e1]
          omega
        · dsimp only
          refine ⟨dA ++ d2, ?_, ?_⟩
          · rw [hTem2a, hHem, hAem, List.append_assoc]
          · have hsplit : dfsNames items
                = dfsNames (List.take sect.head_count items)
                  ++ dfsNames (List.drop sect.head_count items) := by
              rw [← dfsNames_append, List.take_append_drop]
            rw [hsplit]
            refine List.Sublist.append hAsub ?_
            refine List.Sublist.trans hTsub2 ?_
            have hdd : List.drop (items.length - sect.tail_count) items
                = List.drop ((items.length - sect.tail_count) - sect.head_count)
                    (List.drop sect.head_count items) := by
              rw [List.drop_drop]
              congr 1
              omega
            rw [hdd]
            exact dfsNames_sublist (List.drop_sublist _ _)
        · dsimp only
          refine ⟨sA ++ (dh ++ ds2), ?_, ?_⟩
          · rw [hTsm3a, hHsma, hAsm]
            simp [List.append_assoc]
          · intro x hx
            simp at hx
            rcases hx with h | h | h
            exacts [hAsm2 x h, hHsm2a x h, hTsm3b x h]
        · dsimp only
          omega
    · intro cfg now pre lastf i items s hm
      cases items with
      | nil =>
        rw [show_loop.eq_def]
        exact ⟨rfl, rfl, le_refl _, by intro _ _; simp, ⟨[], by simp, by simp⟩,
          ⟨[], by simp, by simp⟩, by dsimp only; omega⟩
      | cons item rest =>
        rw [show_loop.eq_def]
        dsimp only
        split
        · exact ⟨rfl, rfl, le_refl _, by intro _ _; simp, ⟨[], by simp, by simp⟩,
            ⟨[], by simp, by simp⟩, by dsimp only; omega⟩
        · rename_i hlr
          rw [List.cons.sizeOf_spec] at hm
          have hip : 1 ≤ sizeOf item := by
            cases item
            simp
            omega
          have hrp := list_sizeOf_pos rest
          have hchild : 2 * sizeOf item.children + 1 ≤ n := by
            have := sizeOf_children_lt item
            omega
          have hrest : 2 * sizeOf rest ≤ n := by omega
          have hCspec := ihI cfg now item.children
            (pre ++ if lastf i = true then TREE_SPACE else TREE_VERTICAL)
            { lines_remaining := s.lines_remaining - 1,
              output := s.output ++ format_entry cfg now item pre (lastf i),
              depth := s.depth, budget_stack := s.budget_stack,
              emitted := s.emitted ++ [item.name], summaries := s.summaries,
              work := s.work + 1 } hchild
          set C := show_items cfg now item.children
            (pre ++ if lastf i = true then TREE_SPACE else TREE_VERTICAL)
            { lines_remaining := s.lines_remaining - 1,
              output := s.output ++ format_entry cfg now item pre (lastf i),
              depth := s.depth, budget_stack := s.budget_stack,
              emitted := s.emitted ++ [item.name], summaries := s.summaries,
              work := s.work + 1 } with hC
          obtain ⟨hCd, hCb, hClr, hCnl, ⟨dC, hCem, hCsub⟩, ⟨sC, hCsm, hCsm2⟩, hCw⟩ := hCspec
          dsimp only at hCd hCb hClr hCnl hCem hCsm hCw
          set S2 := (if (item.is_dir && decide (s.lines_remaining - 1 > 0) &&
              !(item.is_gitignored && !cfg.show_system_dirs
                || item.filtered_by.isSome && !cfg.show_filtered)) = true then C
            else
              { lines_remaining := s.lines_remaining - 1,
                output := s.output ++ format_entry cfg now item pre (lastf i),
                depth := s.depth, budget_stack := s.budget_stack,
                emitted := s.emitted ++ [item.name], summaries := s.summaries,
                work := s.work + 1 }) with hS2
          have h2d : S2.depth = s.depth := by
            rw [hS2]; split
            · exact hCd
            · rfl
          have h2b : S2.budget_stack = s.budget_stack := by
            rw [hS2]; split
            · exact hCb
            · rfl
          have h2lr : S2.lines_remaining ≤ s.lines_remaining - 1 := by
            rw [hS2]; split
            · exact hClr
            · exact le_refl _
          have h2em : ∃ dC2, S2.emitted = (s.emitted ++ [item.name]) ++ dC2 ∧
              dC2.Sublist (dfsNames item.children) := by
            rw [hS2]; split
            · exact ⟨dC, hCem, hCsub⟩
            · exact ⟨[], by simp, List.nil_sublist _⟩
          have h2sm : ∃ sC2, S2.summaries = s.summaries ++ sC2 ∧ ∀ x ∈ sC2, 2 ≤ x := by
            rw [hS2]; split
            · exact ⟨sC, hCsm, hCsm2⟩
            · exact ⟨[], by simp, by simp⟩
          have h2w : S2.work ≤ s.work + 1 + 4 * ((s.lines_remaining - 1)
              - S2.lines_remaining) + 3 := by
            rw [hS2]
            split
            · exact hCw
            · dsimp only
              omega
          have h2nl : strNoNL item.name = true → annNoNL item.filterAnn = true →
              forestNoNL item.children = true → countNL pre = 0 →
              countNL S2.output = countNL s.output + 1
                + ((s.lines_remaining - 1) - S2.lines_remaining) := by
            intro hnm hann hfc hp
            have hline : countNL (s.output ++ format_entry cfg now item pre (lastf i))
                = countNL s.output + 1 := by
              rw [countNL_append, countNL_format_entry cfg now item pre (lastf i) hp hnm hann]
            have hp2 : countNL (pre ++ if lastf i = true then TREE_SPACE else TREE_VERTICAL)
                = 0 := by
              rw [countNL_append, hp]
              split <;> decide
            rw [hS2]
            split
            · rw [hCnl hfc hp2, hline]
            · dsimp only
              rw [hline]
              omega
          have hRspec := ihL cfg now pre lastf (i + 1) rest S2 hrest
          obtain ⟨hRd, hRb, hRlr, hRnl, ⟨dR, hRem, hRsub⟩, ⟨sR, hRsm, hRsm2⟩, hRw⟩ := hRspec
          obtain ⟨dC2, h2ema, h2emb⟩ := h2em
          obtain ⟨sC2, h2sma, h2smb⟩ := h2sm
          refine ⟨?_, ?_, ?_, ?_, ?_, ?_, ?_⟩
          · rw [hRd, h2d]
          · rw [hRb, h2b]
          · omega
          · intro hforest hp
            rw [forestNoNL_cons] at hforest
            simp only [Bool.and_eq_true] at hforest
            obtain ⟨⟨⟨hnm, hann⟩, hfc⟩, hfr⟩ := hforest
            rw [hRnl hfr hp, h2nl hnm hann hfc hp]
            omega
          · refine ⟨item.name :: (dC2 ++ dR), ?_, ?_⟩
            · rw [hRem, h2ema]
              simp
            · rw [dfsNames]
              exact (List.Sublist.append h2emb hRsub).cons₂ _
          · refine ⟨sC2 ++ sR, ?_, ?_⟩
            · rw [hRsm, h2sma, List.append_assoc]
            · intro x hx
              rcases List.mem_append.mp hx with h | h
              exacts [h2smb x h, hRsm2 x h]
          · omega

theorem natCmp_eq_iff (a b : Nat) : natCmp a b = Ordering.eq ↔ a = b := by
  unfold natCmp
  split_ifs
  all_goals simp_all
  all_goals omega

theorem natCmp_gt_iff (a b : Nat) : natCmp a b = Ordering.gt ↔ b < a := by
  unfold natCmp
  split_ifs
  all_goals simp_all
  all_goals omega

theorem natCmp_lt_iff (a b : Nat) : natCmp a b = Ordering.lt ↔ a < b := by
  unfold natCmp
  split_ifs
  all_goals simp_all
  all_goals omega

theorem natCmp_ne_gt_iff (a b : Nat) : (natCmp a b ≠ Ordering.gt) ↔ a ≤ b := by
  simp only [ne_eq, natCmp_gt_iff]
  omega

theorem natCmp_swap (a b : Nat) : natCmp b a = (natCmp a b).swap := by
  unfold natCmp
  split_ifs
  all_goals try (exfalso; omega)
  all_goals decide

theorem listCmp_nil_ne_gt (c : List Char) : listCmp [] c ≠ Ordering.gt := by
  cases c <;> simp [listCmp]

theorem listCmp_swap (a b : List Char) : listCmp b a = (listCmp a b).swap := by
  induction a generalizing b with
  | nil => cases b <;> simp [listCmp, Ordering.swap]
  | cons x xs ih =>
    cases b with
    | nil => simp [listCmp, Ordering.swap]
    | cons y ys =>
      rw [listCmp, listCmp]
      have hs : chrCmp y x = (chrCmp x y).swap := natCmp_swap _ _
      rcases h : chrCmp x y with _ | _ | _ <;>
        rw [h] at hs <;> rw [hs] <;> simp [Ordering.swap, ih]

theorem listCmp_le_trans {a b c : List Char} (h1 : listCmp a b ≠ Ordering.gt)
    (h2 : listCmp b c ≠ Ordering.gt) : listCmp a c ≠ Ordering.gt := by
  induction a generalizing b c with
  | nil => exact listCmp_nil_ne_gt c
  | cons x xs ih =>
    cases b with
    | nil => simp [listCmp] at h1
    | cons y ys =>
      cases c with
      | nil => simp [listCmp] at h2
      | cons z zs =>
        rw [listCmp] at h1 h2 ⊢
        rcases hxy : chrCmp x y with _ | _ | _ <;> rw [hxy] at h1 <;>
          rcases hyz : chrCmp y z with _ | _ | _ <;> rw [hyz] at h2
        all_goals simp only [chrCmp, natCmp_lt_iff, natCmp_eq_iff, natCmp_gt_iff]
          at hxy hyz
        all_goals try exact absurd rfl h1
        all_goals try exact absurd rfl h2
        · have hx : chrCmp x z = Ordering.lt := by
            simp only [chrCmp, natCmp_lt_iff]; omega
          rw [hx]; simp
        · have hx : chrCmp x z = Ordering.lt := by
            simp only [chrCmp, natCmp_lt_iff]; omega
          rw [hx]; simp
        · have hx : chrCmp x z = Ordering.lt := by
            simp only [chrCmp, natCmp_lt_iff]; omega
          rw [hx]; simp
        · have hx : chrCmp x z = Ordering.eq := by
            simp only [chrCmp, natCmp_eq_iff]; omega
          rw [hx]
          exact ih h1 h2

theorem strCmp_swap (a b : String) : strCmp b a = (strCmp a b).swap :=
  listCmp_swap a.data b.data

theorem strCmp_le_trans {a b c : String} (h1 : strCmp a b ≠ Ordering.gt)
    (h2 : strCmp b c ≠ Ordering.gt) : strCmp a c ≠ Ordering.gt :=
  listCmp_le_trans h1 h2

theorem cmpEntries_swap (cfg : DisplayConfig) (a b : DirectoryEntry) :
    cmpEntries cfg b a = (cmpEntries cfg a b).swap := by
  unfold cmpEntries
  cases hdf : cfg.dirs_first <;> cases hA : a.is_dir <;> cases hB : b.is_dir <;>
    simp only [Bool.true_and, Bool.false_and, Bool.and_true, Bool.and_false,
      Bool.not_true, Bool.not_false, if_true, if_false, Bool.and_self,
      Bool.false_eq_true, Bool.true_eq_false, ite_true, ite_false] <;>
    first
      | rfl
      | (cases cfg.sort_by <;>
          first
            | exact strCmp_swap _ _
            | exact natCmp_swap _ _)

theorem cmpEntries_le_trans (cfg : DisplayConfig) {a b c : DirectoryEntry}
    (h1 : cmpEntries cfg a b ≠ Ordering.gt)
    (h2 : cmpEntries cfg b c ≠ Ordering.gt) :
    cmpEntries cfg a c ≠ Ordering.gt := by
  unfold cmpEntries at h1 h2 ⊢
  cases hdf : cfg.dirs_first <;> rw [hdf] at h1 h2 <;>
    cases hA : a.is_dir <;> rw [hA] at h1 <;>
    cases hB : b.is_dir <;> rw [hB] at h1 h2 <;>
    cases hC : c.is_dir <;> rw [hC] at h2 <;>
    simp only [Bool.true_and, Bool.false_and, Bool.and_true, Bool.and_false,
      Bool.not_true, Bool.not_false, if_true, if_false, Bool.and_self,
      Bool.false_eq_true, Bool.true_eq_false, ite_true, ite_false] at h1 h2 ⊢
  all_goals try exact absurd rfl h1
  all_goals try exact absurd rfl h2
  all_goals try simp
  all_goals
    cases hs : cfg.sort_by <;> rw [hs] at h1 h2 <;> dsimp only at h1 h2 ⊢ <;>
      first
        | exact strCmp_le_trans h1 h2
        | (rw [natCmp_ne_gt_iff] at h1 h2
           intro hg
           rw [natCmp_gt_iff] at hg
           omega)
theorem insertCmp_perm {α : Type} (cmp : α → α → Ordering) (x : α) (l : List α) :
    (insertCmp cmp x l).Perm (x :: l) := by
  induction l with
  | nil => simp [insertCmp]
  | cons y ys ih =>
    rw [insertCmp]
    split
    · exact ((ih.cons y).trans (List.Perm.swap x y ys))
    · exact List.Perm.refl _

theorem sortByCmp_perm {α : Type} (cmp : α → α → Ordering) (l : List α) :
    (sortByCmp cmp l).Perm l := by
  induction l with
  | nil => exact List.Perm.refl _
  | cons x xs ih =>
    rw [sortByCmp]
    exact (insertCmp_perm cmp x (sortByCmp cmp xs)).trans (ih.cons x)

theorem mem_insertCmp {α : Type} {cmp : α → α → Ordering} {x z : α} {l : List α}
    (h : z ∈ insertCmp cmp x l) : z = x ∨ z ∈ l := by
  have := (insertCmp_perm cmp x l).mem_iff.mp h
  simpa using this

theorem insertCmp_pairwise_le {α : Type} (cmp : α → α → Ordering)
    (hasym : ∀ a b, cmp a b = Ordering.gt → cmp b a ≠ Ordering.gt)
    (htrans : ∀ a b c, cmp a b ≠ Ordering.gt → cmp b c ≠ Ordering.gt →
      cmp a c ≠ Ordering.gt)
    (x : α) (l : List α) (hl : l.Pairwise (fun a b => cmp a b ≠ Ordering.gt)) :
    (insertCmp cmp x l).Pairwise (fun a b => cmp a b ≠ Ordering.gt) := by
  induction l with
  | nil => simp [insertCmp]
  | cons y ys ih =>
    rw [insertCmp]
    rw [List.pairwise_cons] at hl
    split
    · rename_i hgt
      rw [List.pairwise_cons]
      constructor
      · intro z hz
        rcases mem_insertCmp hz with h | h
        · rw [h]
          exact hasym _ _ hgt
        · exact hl.1 z h
      · exact ih hl.2
    · rename_i hng
      rw [List.pairwise_cons]
      constructor
      · intro z hz
        rcases List.mem_cons.mp hz with h | h
        · rw [h]; exact hng
        · exact htrans x y z hng (hl.1 z h)
      · exact List.Pairwise.cons hl.1 hl.2

theorem sortByCmp_pairwise_le {α : Type} (cmp : α → α → Ordering)
    (hasym : ∀ a b, cmp a b = Ordering.gt → cmp b a ≠ Ordering.gt)
    (htrans : ∀ a b c, cmp a b ≠ Ordering.gt → cmp b c ≠ Ordering.gt →
      cmp a c ≠ Ordering.gt)
    (l : List α) :
    (sortByCmp cmp l).Pairwise (fun a b => cmp a b ≠ Ordering.gt) := by
  induction l with
  | nil => simp [sortByCmp]
  | cons x xs ih =>
    rw [sortByCmp]
    exact insertCmp_pairwise_le cmp hasym htrans x _ ih

theorem insertCmp_pairwise_stable {α : Type} (cmp : α → α → Ordering)
    (hsymm : ∀ a b, cmp a b = Ordering.eq → cmp b a = Ordering.eq)
    (x : Nat × α) (l : List (Nat × α))
    (hx : ∀ q ∈ l, x.1 < q.1)
    (hl : l.Pairwise (fun p q => cmp p.2 q.2 = Ordering.eq → p.1 < q.1)) :
    (insertCmp (fun p q => cmp p.2 q.2) x l).Pairwise
      (fun p q => cmp p.2 q.2 = Ordering.eq → p.1 < q.1) := by
  induction l with
  | nil => simp [insertCmp]
  | cons y ys ih =>
    rw [insertCmp]
    rw [List.pairwise_cons] at hl
    split
    · rename_i hgt
      rw [List.pairwise_cons]
      constructor
      · intro z hz
        rcases mem_insertCmp hz with h | h
        · rw [h]
          intro heq
          rw [hsymm _ _ heq] at hgt
          simp at hgt
        · exact hl.1 z h
      · exact ih (fun q hq => hx q (List.mem_cons_of_mem y hq)) hl.2
    · rw [List.pairwise_cons]
      constructor
      · intro z hz
        intro _
        exact hx z hz
      · exact List.Pairwise.cons hl.1 hl.2

theorem sortByCmp_stable {α : Type} (cmp : α → α → Ordering)
    (hsymm : ∀ a b, cmp a b = Ordering.eq → cmp b a = Ordering.eq)
    (l : List (Nat × α)) (hl : l.Pairwise (fun p q => p.1 < q.1)) :
    (sortByCmp (fun p q => cmp p.2 q.2) l).Pairwise
      (fun p q => cmp p.2 q.2 = Ordering.eq → p.1 < q.1) := by
  induction l with
  | nil => simp [sortByCmp]
  | cons x xs ih =>
    rw [sortByCmp]
    rw [List.pairwise_cons] at hl
    refine insertCmp_pairwise_stable cmp hsymm x _ ?_ (ih hl.2)
    intro q hq
    exact hl.1 q ((sortByCmp_perm _ xs).mem_iff.mp hq)

theorem insertCmp_map_snd {α : Type} (cmp : α → α → Ordering) (x : Nat × α)
    (l : List (Nat × α)) :
    (insertCmp (fun p q => cmp p.2 q.2) x l).map Prod.snd
      = insertCmp cmp x.2 (l.map Prod.snd) := by
  induction l with
  | nil => simp [insertCmp]
  | cons y ys ih =>
    rw [List.map_cons, insertCmp, insertCmp]
    split <;> rename_i h
    · rw [List.map_cons, ih]
    · rfl

theorem sortByCmp_map_snd {α : Type} (cmp : α → α → Ordering)
    (l : List (Nat × α)) :
    (sortByCmp (fun p q => cmp p.2 q.2) l).map Prod.snd
      = sortByCmp cmp (l.map Prod.snd) := by
  induction l with
  | nil => rfl
  | cons x xs ih =>
    rw [sortByCmp, List.map_cons, sortByCmp, insertCmp_map_snd, ih]
theorem forestNoNL_iff (l : List DirectoryEntry) :
    forestNoNL l = true ↔ ∀ e ∈ l, strNoNL e.name = true ∧ annNoNL e.filterAnn = true
      ∧ forestNoNL e.children = true := by
  induction l with
  | nil => simp [forestNoNL_nil]
  | cons e rest ih =>
    rw [forestNoNL_cons]
    simp only [Bool.and_eq_true, ih, List.mem_cons]
    constructor
    · rintro ⟨⟨⟨h1, h2⟩, h3⟩, h4⟩ x hx
      rcases hx with h | h
      · subst h; exact ⟨h1, h2, h3⟩
      · exact h4 x h
    · intro h
      refine ⟨⟨⟨(h e (Or.inl rfl)).1, (h e (Or.inl rfl)).2.1⟩, (h e (Or.inl rfl)).2.2⟩, ?_⟩
      intro x hx
      exact h x (Or.inr hx)

theorem forestNoNL_perm {l₁ l₂ : List DirectoryEntry} (h : l₁.Perm l₂)
    (h2 : forestNoNL l₂ = true) : forestNoNL l₁ = true := by
  rw [forestNoNL_iff] at h2 ⊢
  intro e he
  exact h2 e (h.mem_iff.mp he)

theorem wsub1_eq {n : Nat} (h1 : 1 ≤ n) (h2 : n < 2 ^ 64) : wsub1 n = n - 1 := by
  unfold wsub1
  have h3 : n + (2 ^ 64 - 1) = 2 ^ 64 + (n - 1) := by omega
  rw [h3, Nat.add_mod_left]
  exact Nat.mod_eq_of_lt (by omega)

theorem format_tree_spec (cfg : DisplayConfig) (now : Nat) (root : DirectoryEntry) :
    RenderOut 3 (sort_entries cfg root.children) ""
      { lines_remaining := wsub1 cfg.max_lines,
        output := "" ++ colorize_styled "." (get_name_color root cfg) true cfg ++ "\n",
        depth := 0, budget_stack := [cfg.max_lines], emitted := [], summaries := [],
        work := 0 }
      (format_tree cfg now root) := by
  unfold format_tree DisplayState.new
  dsimp only
  exact (render_spec (2 * sizeOf (sort_entries cfg root.children) + 1)).1 cfg now _ ""
    _ (le_refl _)

theorem countNL_root_line (cfg : DisplayConfig) (root : DirectoryEntry) :
    countNL ("" ++ colorize_styled "." (get_name_color root cfg) true cfg ++ "\n")
      = 1 := by
  rw [countNL_append, countNL_append, countNL_colorize_styled]
  decide
def mkFile (nm : String) : DirectoryEntry :=
  ⟨nm, false, ⟨100, 0, 0, 0⟩, [], false, none, none, FileType.Regular⟩

def mkDir (nm : String) (cs : List DirectoryEntry) : DirectoryEntry :=
  ⟨nm, true, ⟨100, 0, 0, cs.length⟩, cs, false, none, none, FileType.Directory⟩

def cfgPlain (ml dl : Nat) : DisplayConfig :=
  ⟨ml, dl, SortBy.Name, false, false, ColorTheme.NoTheme, false, false, false,
   false, false, false, false⟩

def treeC3 : DirectoryEntry := mkDir "root" [mkFile "f"]

def treeC4 : DirectoryEntry := mkDir "root" [mkFile "a", mkFile "b"]

def treeC6 : DirectoryEntry := mkDir "root" [mkDir "D" [mkFile "b", mkFile "a"]]

def treeC7 : DirectoryEntry :=
  mkDir "root" [mkFile "file1", mkFile "file2", mkFile "file3"]

def treeD4 : DirectoryEntry :=
  mkDir "root" [mkFile "file1", mkFile "file2", mkFile "file3", mkFile "file4"]

def treeC10 : DirectoryEntry :=
  mkDir "r"
    [mkDir "d0" [mkFile "f0", mkDir "d1" [mkFile "f0"], mkFile "f2", mkFile "f3",
       mkFile "f4"],
     mkDir "d1" [mkFile "f0", mkDir "d1" [mkFile "f1"], mkDir "d2" [mkFile "f0"]]]

/-- C1 (counterexample): with `max_lines = 0` the rendered text still contains
lines (the root marker is emitted unconditionally and the unguarded decrement
wraps), so `line_count ≤ max_lines` fails for this config. -/
theorem C1_counterexample :
    (cfgPlain 0 20).max_lines < countNL (format_tree (cfgPlain 0 20) 0 treeC3).output := by
  have h : countNL (format_tree (cfgPlain 0 20) 0 treeC3).output = 2 := by
    simp [format_tree, show_items, show_loop, DisplayState.new, treeC3, mkDir, mkFile,
      cfgPlain, sort_entries, sortByCmp, insertCmp, cmpEntries, strCmp, listCmp, chrCmp,
      natCmp, calculate_level_budget, calculate_display_section, wsub1, countNL,
      format_entry, colorize, colorize_styled, should_use_colors, should_use_emoji,
      format_colorized_metadata, format_metadata, format_file_metadata,
      format_directory_metadata, format_size, format_time, format_detailed_metadata]
    decide
  rw [h]
  decide

/-- C1 (amended): for every tree whose names and annotations are newline-free
and every config with `1 ≤ max_lines` (within the usize range), the text
returned by `format_tree` contains at most `max_lines` lines, for trees of any
size and depth. -/
theorem C1_amended_line_budget (cfg : DisplayConfig) (now : Nat)
    (root : DirectoryEntry) (h1 : 1 ≤ cfg.max_lines) (h2 : cfg.max_lines < 2 ^ 64)
    (hf : forestNoNL root.children = true) :
    countNL (format_tree cfg now root).output ≤ cfg.max_lines := by
  obtain ⟨-, -, hlr, hnl, -, -, -⟩ := format_tree_spec cfg now root
  dsimp only at hlr hnl
  have hfs : forestNoNL (sort_entries cfg root.children) = true :=
    forestNoNL_perm (sortByCmp_perm _ _) hf
  have h0 := hnl hfs (by decide)
  rw [wsub1_eq h1 h2] at hlr h0
  rw [countNL_root_line] at h0
  omega

/-- C1 witness: the amended bound at a concrete tree and config. -/
theorem C1_witness :
    (1 ≤ (cfgPlain 10 20).max_lines ∧ (cfgPlain 10 20).max_lines < 2 ^ 64
      ∧ forestNoNL treeC7.children = true)
    ∧ countNL (format_tree (cfgPlain 10 20) 0 treeC7).output ≤ (cfgPlain 10 20).max_lines := by
  have hf : forestNoNL treeC7.children = true := by
    simp [treeC7, mkDir, mkFile, forestNoNL, annNoNL, strNoNL]
  exact ⟨⟨by decide, by decide, hf⟩,
    C1_amended_line_budget (cfgPlain 10 20) 0 treeC7 (by decide) (by decide) hf⟩

/-- C2 (counterexample): the claim's side condition that the number of
emitted lines is itself bounded by `max_lines` fails at `max_lines = 0`:
the unguarded root-marker decrement wraps the counter, and the renderer
emits 2 lines against a 0-line budget. -/
theorem C2_counterexample :
    (cfgPlain 0 20).max_lines = 0
    ∧ countNL (format_tree (cfgPlain 0 20) 0 treeC3).output = 2 := by
  refine ⟨by decide, ?_⟩
  simp [format_tree, show_items, show_loop, DisplayState.new, treeC3, mkDir, mkFile,
    cfgPlain, sort_entries, sortByCmp, insertCmp, cmpEntries, strCmp, listCmp, chrCmp,
    natCmp, calculate_level_budget, calculate_display_section, wsub1, countNL,
    format_entry, colorize, colorize_styled, should_use_colors, should_use_emoji,
    format_colorized_metadata, format_metadata, format_file_metadata,
    format_directory_metadata, format_size, format_time, format_detailed_metadata]
  decide

/-- C2 (amended): `format_tree` is a total function (it is defined by
well-founded recursion on the tree, hence terminates on every finite input);
for every config with `1 ≤ max_lines` (within the usize range) its ghost
work counter — one unit per `show_items` call and per loop iteration — is
bounded linearly by the number of lines actually emitted
(`max_lines - lines_remaining`), which never exceeds `max_lines`; the bound is
independent of the size or depth of the input tree.  Without the `max_lines`
restriction the line-count clause is refuted by `C2_counterexample`. -/
theorem C2_work_bounded_by_output (cfg : DisplayConfig) (now : Nat)
    (root : DirectoryEntry) (h1 : 1 ≤ cfg.max_lines) (h2 : cfg.max_lines < 2 ^ 64) :
    (format_tree cfg now root).work
      ≤ 4 * (cfg.max_lines - (format_tree cfg now root).lines_remaining) + 3
    ∧ cfg.max_lines - (format_tree cfg now root).lines_remaining ≤ cfg.max_lines := by
  obtain ⟨-, -, hlr, -, -, -, hw⟩ := format_tree_spec cfg now root
  dsimp only at hlr hw
  rw [wsub1_eq h1 h2] at hlr hw
  constructor <;> omega

/-- C2 witness: the work bound at a concrete tree and config. -/
theorem C2_witness :
    (1 ≤ (cfgPlain 10 20).max_lines ∧ (cfgPlain 10 20).max_lines < 2 ^ 64)
    ∧ (format_tree (cfgPlain 10 20) 0 treeC10).work
        ≤ 4 * ((cfgPlain 10 20).max_lines
            - (format_tree (cfgPlain 10 20) 0 treeC10).lines_remaining) + 3 :=
  ⟨⟨by decide, by decide⟩,
   (C2_work_bounded_by_output (cfgPlain 10 20) 0 treeC10 (by decide) (by decide)).1⟩

/-- C3: evaluating the code at the failing input `max_lines = 0`: the root
marker line is pushed and the unguarded `lines_remaining -= 1` wraps to
`2^64 - 1` (in debug builds it panics), so the renderer goes on to emit the
tree — the result is neither empty nor root-marker-only, and the counter did
not saturate at zero. -/
theorem C3_underflow_eval :
    countNL (format_tree (cfgPlain 0 20) 0 treeC3).output = 2
    ∧ (format_tree (cfgPlain 0 20) 0 treeC3).lines_remaining = 2 ^ 64 - 2 := by
  constructor <;>
    simp [format_tree, show_items, show_loop, DisplayState.new, treeC3, mkDir, mkFile,
      cfgPlain, sort_entries, sortByCmp, insertCmp, cmpEntries, strCmp, listCmp, chrCmp,
      natCmp, calculate_level_budget, calculate_display_section, wsub1, countNL,
      format_entry, colorize, colorize_styled, should_use_colors, should_use_emoji,
      format_colorized_metadata, format_metadata, format_file_metadata,
      format_directory_metadata, format_size, format_time, format_detailed_metadata] <;>
    decide

/-- C6 (counterexample): nested sibling groups are not re-sorted: directory
`D` stores its children as `[b, a]`, and with `sort_key = name` the renderer
shows `b` before `a` even though the comparator orders `a` first. -/
theorem C6_counterexample :
    (format_tree (cfgPlain 20 20) 0 treeC6).emitted = ["D", "b", "a"]
    ∧ cmpEntries (cfgPlain 20 20) (mkFile "a") (mkFile "b") = Ordering.lt := by
  constructor
  · simp [format_tree, show_items, show_loop, DisplayState.new, treeC6, mkDir, mkFile,
      cfgPlain, sort_entries, sortByCmp, insertCmp, cmpEntries, strCmp, listCmp, chrCmp,
      natCmp, calculate_level_budget, calculate_display_section, wsub1]
  · decide

/-- C6 (amended): only the root's children are sorted; every entry line is
then produced in the stored order of the tree — the emitted name sequence is
a subsequence of the depth-first traversal of the root-sorted forest. -/
theorem C6_amended_stored_order (cfg : DisplayConfig) (now : Nat)
    (root : DirectoryEntry) :
    (format_tree cfg now root).emitted.Sublist
      (dfsNames (sort_entries cfg root.children)) := by
  obtain ⟨-, -, -, -, ⟨d, hem, hsub⟩, -, -⟩ := format_tree_spec cfg now root
  dsimp only at hem
  rw [hem]
  simpa using hsub

/-- C7: (counterexample) for a root with exactly 3 files and `dir_limit = 2`
at ample `max_lines`, only `file1` is shown together with a
`"... 2 items hidden ..."` line — not all 3 files. -/
theorem C7_counterexample :
    (format_tree (cfgPlain 20 2) 0 treeC7).emitted = ["file1"]
    ∧ (format_tree (cfgPlain 20 2) 0 treeC7).summaries = [2] := by
  constructor <;>
    simp [format_tree, show_items, show_loop, DisplayState.new, treeC7, mkDir, mkFile,
      cfgPlain, sort_entries, sortByCmp, insertCmp, cmpEntries, strCmp, listCmp, chrCmp,
      natCmp, calculate_level_budget, calculate_display_section, wsub1]

/-- C7 (amended): in that scenario the renderer shows only the head item and
one `"... 2 items hidden ..."` summary; and in no rendering of any tree does a
summary line for exactly one hidden item appear (every recorded summary count
is at least 2). -/
theorem C7_amended_no_single_hidden :
    ((format_tree (cfgPlain 20 2) 0 treeC7).emitted = ["file1"]
      ∧ (format_tree (cfgPlain 20 2) 0 treeC7).summaries = [2])
    ∧ ∀ (cfg : DisplayConfig) (now : Nat) (root : DirectoryEntry) (n : Nat),
        n ∈ (format_tree cfg now root).summaries → 2 ≤ n := by
  constructor
  · constructor <;>
      simp [format_tree, show_items, show_loop, DisplayState.new, treeC7, mkDir, mkFile,
        cfgPlain, sort_entries, sortByCmp, insertCmp, cmpEntries, strCmp, listCmp, chrCmp,
        natCmp, calculate_level_budget, calculate_display_section, wsub1]
  · intro cfg now root n hn
    obtain ⟨-, -, -, -, -, ⟨ds, hsm, h2⟩, -⟩ := format_tree_spec cfg now root
    dsimp only at hsm
    rw [hsm] at hn
    simp at hn
    exact h2 n hn

/-- C7 witness: the general no-single-item-summary fact applied at a concrete
rendering whose summary list is `[2]`. -/
theorem C7_witness :
    3 ∈ (format_tree (cfgPlain 20 2) 0 treeD4).summaries ∧ 2 ≤ 3 := by
  have h : (format_tree (cfgPlain 20 2) 0 treeD4).summaries = [3] := by
    simp [format_tree, show_items, show_loop, DisplayState.new, treeD4, mkDir, mkFile,
      cfgPlain, sort_entries, sortByCmp, insertCmp, cmpEntries, strCmp, listCmp, chrCmp,
      natCmp, calculate_level_budget, calculate_display_section, wsub1]
  refine ⟨by rw [h]; simp, ?_⟩
  exact C7_amended_no_single_hidden.2 (cfgPlain 20 2) 0 treeD4 3 (by rw [h]; simp)
/-- C4 (counterexample): with 2 children and effective budget 1 the computed
section is `(head 1, tail 0, hidden 1)`, and the renderer emits only the
first child and no summary line — the second child is neither shown nor
summarized, so a final section does contain exactly one hidden item. -/
theorem C4_counterexample :
    calculate_display_section 2 1 = ⟨1, 0, 1⟩
    ∧ (format_tree (cfgPlain 10 1) 0 treeC4).emitted = ["a"]
    ∧ (format_tree (cfgPlain 10 1) 0 treeC4).summaries = [] := by
  refine ⟨by decide, ?_, ?_⟩ <;>
    simp [format_tree, show_items, show_loop, DisplayState.new, treeC4, mkDir, mkFile,
      cfgPlain, sort_entries, sortByCmp, insertCmp, cmpEntries, strCmp, listCmp, chrCmp,
      natCmp, calculate_level_budget, calculate_display_section, wsub1]

/-- C4 (amended): when the head/tail sizing yields `hidden_count == 1` the
renderer skips only the summary line; the remaining item is not shown either —
it is silently dropped.  Demonstrated on a directory of 2 children rendered
with `dir_limit = 1` and ample `max_lines`: the section is
`(head 1, tail 0, hidden 1)`, only `a` is emitted, no summary line appears,
and the line count is 2 (root marker plus one entry). -/
theorem C4_amended_single_hidden_dropped :
    calculate_display_section 2 (min (calculate_level_budget 0 9 2) 1) = ⟨1, 0, 1⟩
    ∧ (format_tree (cfgPlain 10 1) 0 treeC4).emitted = ["a"]
    ∧ (format_tree (cfgPlain 10 1) 0 treeC4).summaries = []
    ∧ countNL (format_tree (cfgPlain 10 1) 0 treeC4).output = 2
    ∧ treeC4.children.length = 2 := by
  refine ⟨by decide, ?_, ?_, ?_, by decide⟩ <;>
    simp [format_tree, show_items, show_loop, DisplayState.new, treeC4, mkDir, mkFile,
      cfgPlain, sort_entries, sortByCmp, insertCmp, cmpEntries, strCmp, listCmp, chrCmp,
      natCmp, calculate_level_budget, calculate_display_section, wsub1, countNL,
      format_entry, colorize, colorize_styled, should_use_colors, should_use_emoji,
      format_colorized_metadata, format_metadata, format_file_metadata,
      format_directory_metadata, format_size, format_time, format_detailed_metadata] <;>
    decide

/-- The budget formula as the specification words it (§4.1 / C5): reserve
`2 + 2*depth`, `available = max(lines_remaining - overhead, 0)`, full
available at depth 0, geometric decay `available / 3^depth` below, floored
at 1 whenever any budget remains. -/
def budgetSpecC5 (total_items depth lines_remaining : Nat) : Nat :=
  if lines_remaining = 0 ∨ total_items = 0 then 0
  else
    let available := lines_remaining - (2 + 2 * depth)
    if available = 0 then 0
    else max (min (if depth = 0 then available else available / 3 ^ depth) total_items) 1

/-- C5 (counterexample): the implementation computes `3_usize.pow(depth as
u32)`, so the exponent is truncated to 32 bits; at `depth = 2^32` the factor
collapses to `3^0 = 1` and the code returns 2 where the specified formula
(`available / 3^depth` with the true power) returns 1. -/
theorem C5_counterexample :
    calculate_level_budget (2 ^ 32) (2 + 2 ^ 33 + 8) 2 = 2
    ∧ budgetSpecC5 2 (2 ^ 32) (2 + 2 ^ 33 + 8) = 1 := by
  constructor
  · decide
  · unfold budgetSpecC5
    rw [if_neg (by omega)]
    have havail : (2 + 2 ^ 33 + 8) - (2 + 2 * 2 ^ 32) = 8 := by norm_num
    rw [havail]
    rw [if_neg (by omega)]
    rw [if_neg (by norm_num)]
    have hpow : (8 : Nat) < 3 ^ 2 ^ 32 := by
      calc (8 : Nat) < 3 ^ 2 := by norm_num
      _ ≤ 3 ^ 2 ^ 32 := Nat.pow_le_pow_right (by omega) (by norm_num)
    rw [Nat.div_eq_of_lt hpow]
    decide

/-- C5 (amended): `calculate_level_budget` always returns at most
`total_children`; and whenever `depth ≤ 40` (so that `3^depth` fits in a
64-bit word and the `as u32` truncation is the identity) it agrees exactly
with the specified formula `budgetSpecC5`. -/
theorem C5_amended_budget_formula (total depth lr : Nat) :
    calculate_level_budget depth lr total ≤ total
    ∧ (depth ≤ 40 →
        calculate_level_budget depth lr total = budgetSpecC5 total depth lr) := by
  constructor
  · unfold calculate_level_budget
    dsimp only
    split_ifs with h h2 h3
    · omega
    · omega
    · have htot : 1 ≤ total := by omega
      exact Nat.max_le.mpr ⟨Nat.min_le_right _ _, htot⟩
    · have htot : 1 ≤ total := by omega
      exact Nat.max_le.mpr ⟨Nat.min_le_right _ _, htot⟩
  · intro hd
    have h32 : (2 : Nat) ^ 32 = 4294967296 := by norm_num
    have hmod : depth % 2 ^ 32 = depth := Nat.mod_eq_of_lt (by omega)
    have hpow : (3 : Nat) ^ depth < 2 ^ 64 := by
      calc (3 : Nat) ^ depth ≤ 3 ^ 40 := Nat.pow_le_pow_right (by omega) hd
      _ < 2 ^ 64 := by norm_num
    have hmul : depth * 2 = 2 * depth := Nat.mul_comm _ _
    unfold calculate_level_budget budgetSpecC5
    try dsimp only
    rw [hmod, Nat.mod_eq_of_lt hpow]
    have hmin : min (depth * 2) (2 ^ 64 - 1) = 2 * depth := by
      rw [hmul]
      exact min_eq_left (by omega)
    rw [hmin]
    have hst : (2 + 2 * depth) % 2 ^ 64 = 2 + 2 * depth :=
      Nat.mod_eq_of_lt (by omega)
    rw [hst]
    by_cases hz : lr = 0 ∨ total = 0
    · rw [if_pos hz, if_pos hz]
    · rw [if_neg hz, if_neg hz]
      try dsimp only
      by_cases ha : lr - (2 + 2 * depth) = 0
      · rw [if_pos ha, if_pos ha]
      · rw [if_neg ha, if_neg ha]
        by_cases hd0 : depth = 0
        · rw [if_pos hd0, if_pos hd0]
        · rw [if_neg hd0, if_neg hd0]

/-- C5 witness: the amended characterization at `total = 5`, `depth = 2`,
`lines_remaining = 30`. -/
theorem C5_witness :
    ((2 : Nat) ≤ 40)
    ∧ calculate_level_budget 2 30 5 ≤ 5
    ∧ calculate_level_budget 2 30 5 = budgetSpecC5 5 2 30 :=
  ⟨by decide, (C5_amended_budget_formula 5 2 30).1,
   (C5_amended_budget_formula 5 2 30).2 (by decide)⟩

/-- Length of the padded fraction produced for `{:.p}` formatting. -/
theorem decDigitsPadded_length (p m : Nat) : (decDigitsPadded p m).length = p := by
  simp [decDigitsPadded]

/-- C8 (counterexample): at exactly 1 GiB the code prints two decimal places
(`"1.00GB"`), not the single decimal place (`"1.0GB"`) the claim asserts for
the GB range. -/
theorem C8_counterexample :
    format_size (2 ^ 30) = "1.00GB" ∧ "1.00GB" ≠ "1.0GB" := by
  constructor <;> decide

/-- C8 (amended): `format_size` renders binary units at radix 1024 with
suffixes B/KB/MB/GB/TB; below 1024 it prints the integer byte count with
suffix `B`; KB and MB carry one decimal place, and GB as well as TB carry two
decimal places. -/
theorem C8_amended_format_size (s : Nat) :
    (s < 1024 → format_size s = Nat.repr s ++ "B")
    ∧ (1024 ≤ s → s < 2 ^ 20 →
        ∃ i f, format_size s = Nat.repr i ++ "." ++ String.mk f ++ "KB" ∧ f.length = 1)
    ∧ (2 ^ 20 ≤ s → s < 2 ^ 30 →
        ∃ i f, format_size s = Nat.repr i ++ "." ++ String.mk f ++ "MB" ∧ f.length = 1)
    ∧ (2 ^ 30 ≤ s → s < 2 ^ 40 →
        ∃ i f, format_size s = Nat.repr i ++ "." ++ String.mk f ++ "GB" ∧ f.length = 2)
    ∧ (2 ^ 40 ≤ s →
        ∃ i f, format_size s = Nat.repr i ++ "." ++ String.mk f ++ "TB" ∧ f.length = 2) := by
  have hKB : sizeKB = 2 ^ 10 := by norm_num [sizeKB]
  have hMB : sizeMB = 2 ^ 20 := by norm_num [sizeMB, sizeKB]
  have hGB : sizeGB = 2 ^ 30 := by norm_num [sizeGB, sizeMB, sizeKB]
  have hTB : sizeTB = 2 ^ 40 := by norm_num [sizeTB, sizeGB, sizeMB, sizeKB]
  refine ⟨?_, ?_, ?_, ?_, ?_⟩
  · intro h
    unfold format_size
    rw [if_neg (by omega), if_neg (by omega), if_neg (by omega), if_neg (by omega)]
  · intro h1 h2
    unfold format_size
    rw [if_neg (by omega), if_neg (by omega), if_neg (by omega), if_pos (by omega)]
    unfold fmtFloat
    exact ⟨_, _, rfl, decDigitsPadded_length _ _⟩
  · intro h1 h2
    unfold format_size
    rw [if_neg (by omega), if_neg (by omega), if_pos (by omega)]
    unfold fmtFloat
    exact ⟨_, _, rfl, decDigitsPadded_length _ _⟩
  · intro h1 h2
    unfold format_size
    rw [if_neg (by omega), if_pos (by omega)]
    unfold fmtFloat
    exact ⟨_, _, rfl, decDigitsPadded_length _ _⟩
  · intro h1
    unfold format_size
    rw [if_pos (by omega)]
    unfold fmtFloat
    exact ⟨_, _, rfl, decDigitsPadded_length _ _⟩

/-- C8 witness: the amended statement at `s = 2048` (KB range). -/
theorem C8_witness :
    ((1024 : Nat) ≤ 2048 ∧ (2048 : Nat) < 2 ^ 20)
    ∧ ∃ i f, format_size 2048 = Nat.repr i ++ "." ++ String.mk f ++ "KB"
        ∧ f.length = 1 :=
  ⟨⟨by decide, by decide⟩, (C8_amended_format_size 2048).2.1 (by decide) (by decide)⟩
/-- C9: `sort_entries` permutes its input, orders it by the comparator
(no earlier element compares `Greater` to a later one), and is stable (on
index-tagged input, tied elements keep ascending indices); the comparator
composes the two policies: with `dirs_first` every directory orders strictly
before every file, and within a partition (or always when `dirs_first` is
off) the configured key decides — `name` ascending, `size`, `modified`,
`created` descending. -/
theorem C9_sort_entries_stable_policy (cfg : DisplayConfig)
    (l : List DirectoryEntry) :
    (sort_entries cfg l).Perm l
    ∧ (sort_entries cfg l).Pairwise (fun a b => cmpEntries cfg a b ≠ Ordering.gt)
    ∧ (∀ tl : List (Nat × DirectoryEntry), tl.Pairwise (fun p q => p.1 < q.1) →
        (sortByCmp (fun p q => cmpEntries cfg p.2 q.2) tl).Pairwise
          (fun p q => cmpEntries cfg p.2 q.2 = Ordering.eq → p.1 < q.1))
    ∧ (∀ tl : List (Nat × DirectoryEntry),
        (sortByCmp (fun p q => cmpEntries cfg p.2 q.2) tl).map Prod.snd
          = sort_entries cfg (tl.map Prod.snd))
    ∧ (cfg.dirs_first = true → ∀ a b : DirectoryEntry, a.is_dir = true →
        b.is_dir = false → cmpEntries cfg a b = Ordering.lt)
    ∧ (∀ a b : DirectoryEntry, cfg.dirs_first = false ∨ a.is_dir = b.is_dir →
        cmpEntries cfg a b = (match cfg.sort_by with
          | SortBy.Name => strCmp a.name b.name
          | SortBy.Size => natCmp b.metadata.size a.metadata.size
          | SortBy.Modified => natCmp b.metadata.modified a.metadata.modified
          | SortBy.Created => natCmp b.metadata.created a.metadata.created)) := by
  have hasym : ∀ a b, cmpEntries cfg a b = Ordering.gt →
      cmpEntries cfg b a ≠ Ordering.gt := by
    intro a b hg
    rw [cmpEntries_swap, hg]
    decide
  have hsymm : ∀ a b, cmpEntries cfg a b = Ordering.eq →
      cmpEntries cfg b a = Ordering.eq := by
    intro a b he
    rw [cmpEntries_swap, he]
    decide
  refine ⟨sortByCmp_perm _ l,
    sortByCmp_pairwise_le _ hasym (fun a b c => cmpEntries_le_trans cfg) l,
    fun tl htl => sortByCmp_stable _ hsymm tl htl,
    fun tl => sortByCmp_map_snd _ tl, ?_, ?_⟩
  · intro hdf a b ha hb
    unfold cmpEntries
    rw [hdf, ha, hb]
    simp
  · intro a b h
    rcases h with h | h
    · simp [cmpEntries, h]
    · cases hb : b.is_dir <;> rw [hb] at h <;> simp [cmpEntries, h, hb]

def cfgD : DisplayConfig :=
  ⟨20, 20, SortBy.Name, true, false, ColorTheme.NoTheme, false, false, false,
   false, false, false, false⟩

def lD : List DirectoryEntry := [mkFile "z", mkDir "d" []]

def tlD : List (Nat × DirectoryEntry) := [(0, mkFile "z"), (1, mkFile "z")]

/-- C9 witness: the sorting properties at a concrete config and list. -/
theorem C9_witness :
    (sort_entries cfgD lD).Perm lD
    ∧ tlD.Pairwise (fun p q => p.1 < q.1)
    ∧ (sortByCmp (fun p q => cmpEntries cfgD p.2 q.2) tlD).Pairwise
        (fun p q => cmpEntries cfgD p.2 q.2 = Ordering.eq → p.1 < q.1)
    ∧ (cfgD.dirs_first = true
        ∧ (mkDir "d" []).is_dir = true ∧ (mkFile "z").is_dir = false
        ∧ cmpEntries cfgD (mkDir "d" []) (mkFile "z") = Ordering.lt) := by
  have hpw : tlD.Pairwise (fun p q => p.1 < q.1) := by
    simp [tlD]
  refine ⟨(C9_sort_entries_stable_policy cfgD lD).1, hpw,
    (C9_sort_entries_stable_policy cfgD lD).2.2.1 tlD hpw,
    rfl, rfl, rfl,
    (C9_sort_entries_stable_policy cfgD lD).2.2.2.2.1 rfl (mkDir "d" [])
      (mkFile "z") rfl rfl⟩

/-- C10 (counterexample): increasing `max_lines` from 20 to 21 on this
14-node tree (with `dir_limit = 5`) decreases the number of distinct entries
shown from 10 to 9. -/
theorem C10_counterexample :
    (cfgPlain 20 5).max_lines ≤ (cfgPlain 21 5).max_lines
    ∧ (format_tree (cfgPlain 20 5) 0 treeC10).emitted.length = 10
    ∧ (format_tree (cfgPlain 21 5) 0 treeC10).emitted.length = 9 := by
  refine ⟨by decide, ?_, ?_⟩ <;>
    simp [format_tree, show_items, show_loop, DisplayState.new, treeC10, mkDir, mkFile,
      cfgPlain, sort_entries, sortByCmp, insertCmp, cmpEntries, strCmp, listCmp, chrCmp,
      natCmp, calculate_level_budget, calculate_display_section, wsub1]
/-- Entry count produced by `show_items` at depth 0 on a list of `N` plain
files with `lr` lines remaining and per-directory cap `dl` (obtained by
mirroring the control flow; see `show_items_flat`). -/
def flatShown (lr N dl : Nat) : Nat :=
  if N = 0 ∨ lr = 0 then 0
  else
    let b := min (calculate_level_budget 0 lr N) dl
    let sect := calculate_display_section N b
    let e1 := min sect.head_count lr
    let lr1 := lr - e1
    let lr2 := if sect.total_hidden > 1 ∧ lr1 > 0 then lr1 - 1 else lr1
    let e2 := if sect.tail_count > 0 ∧ lr2 > 0 then min sect.tail_count lr2 else 0
    e1 + e2

/-- Closed form of `flatShown`. -/
def flatShownClosed (lr N dl : Nat) : Nat :=
  if N = 0 ∨ lr = 0 then 0
  else if lr ≤ 2 then 1
  else if N ≤ min (lr - 2) dl then N
  else max (min (lr - 2) dl - 1) 1

theorem clb_depth_zero (lr N : Nat) (h : ¬ (lr = 0 ∨ N = 0)) :
    calculate_level_budget 0 lr N =
      if lr - 2 = 0 then 0 else max (min (lr - 2) N) 1 := by
  unfold calculate_level_budget
  rw [if_neg (by tauto)]
  dsimp only
  rw [show ((2 + min (0 * 2) (2 ^ 64 - 1)) % 2 ^ 64 : Nat) = 2 from by norm_num,
    if_pos rfl]

theorem cds_le_budget (t b : Nat) (h : t ≤ b) :
    calculate_display_section t b = ⟨t, 0, 0⟩ := by
  unfold calculate_display_section
  rw [if_pos h]

theorem cds_gt_budget (t b : Nat) (h : ¬ t ≤ b) :
    calculate_display_section t b =
      { head_count := 1 + (b - 1 - (1 + if b - 1 > 2 then 1 else 0)) / 2,
        tail_count := (if b - 1 > 2 then 1 else 0) +
          (b - 1 - (1 + if b - 1 > 2 then 1 else 0)
            - (b - 1 - (1 + if b - 1 > 2 then 1 else 0)) / 2),
        total_hidden := t - (1 + (b - 1 - (1 + if b - 1 > 2 then 1 else 0)) / 2
          + ((if b - 1 > 2 then 1 else 0) +
            (b - 1 - (1 + if b - 1 > 2 then 1 else 0)
              - (b - 1 - (1 + if b - 1 > 2 then 1 else 0)) / 2))) } := by
  unfold calculate_display_section
  rw [if_neg h]

set_option maxHeartbeats 1600000 in
theorem flatShown_eq_closed (lr N dl : Nat) :
    flatShown lr N dl = flatShownClosed lr N dl := by
  by_cases h0 : N = 0 ∨ lr = 0
  · unfold flatShown flatShownClosed
    rw [if_pos h0, if_pos h0]
  · unfold flatShown flatShownClosed
    rw [if_neg h0, if_neg h0, clb_depth_zero lr N (by tauto)]
    dsimp only
    by_cases hNb : N ≤ min (if lr - 2 = 0 then 0 else max (min (lr - 2) N) 1) dl
    · rw [cds_le_budget _ _ hNb]
      dsimp only
      split_ifs at hNb ⊢
      all_goals omega
    · rw [cds_gt_budget _ _ hNb]
      dsimp only
      split_ifs at hNb ⊢
      all_goals omega

theorem flatShownClosed_mono (N dl : Nat) {lr lr' : Nat} (h : lr ≤ lr') :
    flatShownClosed lr N dl ≤ flatShownClosed lr' N dl := by
  unfold flatShownClosed
  split_ifs
  all_goals omega

theorem show_loop_flat (cfg : DisplayConfig) (now : Nat) (pre : String)
    (lastf : Nat → Bool) (i : Nat) (es : List DirectoryEntry)
    (hf : ∀ e ∈ es, e.is_dir = false) (s : DisplayState) :
    (show_loop cfg now pre lastf i es s).emitted.length
        = s.emitted.length + min es.length s.lines_remaining
    ∧ (show_loop cfg now pre lastf i es s).lines_remaining
        = s.lines_remaining - min es.length s.lines_remaining := by
  induction es generalizing i s with
  | nil =>
    rw [show_loop.eq_def]
    dsimp only
    simp only [List.length_nil]
    omega
  | cons e rest ih =>
    rw [show_loop.eq_def]
    dsimp only
    split
    · rename_i hz
      simp [hz]
    · rename_i hz
      rw [if_neg (by simp [hf e (List.mem_cons_self e rest)])]
      have hrest : ∀ x ∈ rest, x.is_dir = false :=
        fun x hx => hf x (List.mem_cons_of_mem e hx)
      obtain ⟨ha, hb⟩ := ih (i + 1) hrest
        { lines_remaining := s.lines_remaining - 1,
          output := s.output ++ format_entry cfg now e pre (lastf i),
          depth := s.depth, budget_stack := s.budget_stack,
          emitted := s.emitted ++ [e.name], summaries := s.summaries,
          work := s.work + 1 }
      rw [ha, hb]
      dsimp only
      constructor
      · simp only [List.length_append, List.length_cons, List.length_nil]
        omega
      · simp only [List.length_cons]
        omega

theorem show_items_flat (cfg : DisplayConfig) (now : Nat) (pre : String)
    (items : List DirectoryEntry) (hf : ∀ e ∈ items, e.is_dir = false)
    (s : DisplayState) (hd : s.depth = 0) :
    (show_items cfg now items pre s).emitted.length
      = s.emitted.length + flatShown s.lines_remaining items.length cfg.dir_limit := by
  rw [show_items.eq_def]
  dsimp only
  split
  · rename_i hc
    have h0 : items.length = 0 ∨ s.lines_remaining = 0 := by
      rcases hc with hc | hc
      · left
        rcases items with _ | ⟨a, t⟩
        · rfl
        · simp at hc
      · right; exact hc
    unfold flatShown
    rw [if_pos h0]
    dsimp only
    omega
  · rename_i hc
    have hN : items.length ≠ 0 := by
      rcases items with _ | ⟨a, t⟩
      · exact absurd (Or.inl rfl) hc
      · simp
    have hlr0 : s.lines_remaining ≠ 0 := fun h => hc (Or.inr h)
    rw [hd]
    unfold flatShown
    have hcond : ¬ (items.length = 0 ∨ s.lines_remaining = 0) := by
      push_neg
      exact ⟨hN, hlr0⟩
    rw [if_neg hcond]
    dsimp only
    generalize hsect : calculate_display_section items.length
        (min (calculate_level_budget 0 s.lines_remaining items.length) cfg.dir_limit) = sect
    have hhead : sect.head_count ≤ items.length := by
      rw [← hsect]; exact cds_head_le _ _
    have hht : sect.head_count + sect.tail_count ≤ items.length := by
      rw [← hsect]; exact cds_head_tail_le _ _
    obtain ⟨hAe, hAl⟩ := show_loop_flat cfg now pre
      (fun i => sect.tail_count == 0 && i == sect.head_count - 1 &&
        (sect.total_hidden == 0 || sect.total_hidden == 1)) 0
      (items.take sect.head_count)
      (fun e he => hf e (List.take_subset _ _ he))
      { lines_remaining := s.lines_remaining, output := s.output,
        depth := 0 + 1, budget_stack := s.lines_remaining :: s.budget_stack,
        emitted := s.emitted, summaries := s.summaries, work := s.work + 1 }
    set A := show_loop cfg now pre
      (fun i => sect.tail_count == 0 && i == sect.head_count - 1 &&
        (sect.total_hidden == 0 || sect.total_hidden == 1)) 0
      (items.take sect.head_count)
      { lines_remaining := s.lines_remaining, output := s.output,
        depth := 0 + 1, budget_stack := s.lines_remaining :: s.budget_stack,
        emitted := s.emitted, summaries := s.summaries, work := s.work + 1 }
      with hA
    dsimp only at hAe hAl
    have hlent : (items.take sect.head_count).length = sect.head_count := by
      rw [List.length_take]; omega
    rw [hlent] at hAe hAl
    set H := (if sect.total_hidden > 1 ∧ A.lines_remaining > 0 then
        { lines_remaining := A.lines_remaining - 1,
          output := A.output ++ colorize pre (get_connector_color cfg) cfg
            ++ colorize TREE_BRANCH (get_connector_color cfg) cfg
            ++ colorize ("... " ++ Nat.repr sect.total_hidden ++ " items hidden ...")
                 (get_hidden_items_color cfg) cfg ++ "\n",
          depth := A.depth, budget_stack := A.budget_stack, emitted := A.emitted,
          summaries := A.summaries ++ [sect.total_hidden], work := A.work }
      else A) with hH
    have hHe : H.emitted = A.emitted := by rw [hH]; split <;> rfl
    have hHl : H.lines_remaining =
        if sect.total_hidden > 1 ∧ A.lines_remaining > 0
        then A.lines_remaining - 1 else A.lines_remaining := by
      rw [hH]
      split <;> rfl
    obtain ⟨hTe0, hTl0⟩ := show_loop_flat cfg now pre (fun i => i == sect.tail_count - 1) 0
      (items.drop (items.length - sect.tail_count))
      (fun e he => hf e (List.drop_subset _ _ he)) H
    have hlend : (items.drop (items.length - sect.tail_count)).length = sect.tail_count := by
      rw [List.length_drop]; omega
    rw [hlend] at hTe0 hTl0
    set T := (if sect.tail_count > 0 ∧ H.lines_remaining > 0 then
        show_loop cfg now pre (fun i => i == sect.tail_count - 1) 0
          (items.drop (items.length - sect.tail_count)) H
      else H) with hT
    have hTe : T.emitted.length = H.emitted.length +
        (if sect.tail_count > 0 ∧ H.lines_remaining > 0
         then min sect.tail_count H.lines_remaining else 0) := by
      rw [hT]
      split
      · exact hTe0
      · omega
    rw [hTe, hHe, hAe, hHl, hAl]
    split_ifs <;> omega

theorem format_tree_flat (cfg : DisplayConfig) (now : Nat) (root : DirectoryEntry)
    (hf : ∀ e ∈ root.children, e.is_dir = false)
    (h1 : 1 ≤ cfg.max_lines) (h2 : cfg.max_lines < 2 ^ 64) :
    (format_tree cfg now root).emitted.length
      = flatShown (cfg.max_lines - 1) root.children.length cfg.dir_limit := by
  have hperm := sortByCmp_perm (cmpEntries cfg) root.children
  have hf2 : ∀ e ∈ sort_entries cfg root.children, e.is_dir = false := by
    intro e he
    unfold sort_entries at he
    exact hf e (hperm.subset he)
  have hlen : (sort_entries cfg root.children).length = root.children.length := by
    unfold sort_entries
    exact hperm.length_eq
  unfold format_tree DisplayState.new
  dsimp only
  rw [wsub1_eq h1 h2]
  rw [show_items_flat cfg now "" (sort_entries cfg root.children) hf2]
  · dsimp only
    rw [hlen]
    simp only [List.length_nil]
    omega
  · rfl

/-- C10 (amended): for a flat tree (every child of the root is a plain file)
the number of displayed entries is monotonically non-decreasing in
`max_lines`, for any two configurations that agree on `dir_limit`, with
`max_lines` positive and below `2 ^ 64` (so the root decrement does not
wrap).  The spec's unqualified monotonicity claim is refuted by
`C10_counterexample` on a nested tree. -/
theorem C10_amended_flat_monotone (cfg cfg2 : DisplayConfig) (now now2 : Nat)
    (root : DirectoryEntry) (hf : ∀ e ∈ root.children, e.is_dir = false)
    (hdl : cfg.dir_limit = cfg2.dir_limit)
    (h1 : 1 ≤ cfg.max_lines) (h2 : cfg2.max_lines < 2 ^ 64)
    (hml : cfg.max_lines ≤ cfg2.max_lines) :
    (format_tree cfg now root).emitted.length
      ≤ (format_tree cfg2 now2 root).emitted.length := by
  rw [format_tree_flat cfg now root hf h1 (lt_of_le_of_lt hml h2),
    format_tree_flat cfg2 now2 root hf (le_trans h1 hml) h2,
    flatShown_eq_closed, flatShown_eq_closed, hdl]
  exact flatShownClosed_mono _ _ (Nat.sub_le_sub_right hml 1)

/-- Witness for `C10_amended_flat_monotone` at a concrete flat tree. -/
theorem C10_witness :
    (format_tree (cfgPlain 5 10) 0
        (mkDir "r" [mkFile "a", mkFile "b", mkFile "c"])).emitted.length
      ≤ (format_tree (cfgPlain 9 10) 0
        (mkDir "r" [mkFile "a", mkFile "b", mkFile "c"])).emitted.length :=
  C10_amended_flat_monotone (cfgPlain 5 10) (cfgPlain 9 10) 0 0
    (mkDir "r" [mkFile "a", mkFile "b", mkFile "c"])
    (by decide) (by decide) (by decide) (by decide) (by decide)
